import Mathlib

/-!
Verification development for the AH statistics web application (`app.py`).

The Lean definitions below are a shallow embedding of the Python source:
* `parse_timestamp` models the timestamp parser (lines 20-49), including a
  faithful model of CPython `_strptime` field matching for the format
  strings used by the program;
* `load_all_data` models the record loader (lines 63-169);
* `calculate_stats` models the aggregator (lines 171-227);
* `shapePerDayChart` models the per-day / per-month chart bucketing
  (lines 400-426).
-/

namespace AH

/-! ### Characters and Python string helpers -/

/-- Unicode whitespace recognized by Python: the set stripped by
`str.strip()`, matched by `str.isspace()`, and matched by the regex class
`\s` that `_strptime` compiles for whitespace in a format string (all
three agree on every code point). -/
def isSpace (c : Char) : Bool :=
  c = ' ' || c = '\t' || c = '\n' || c = '\r' || c = '\x0b' || c = '\x0c' ||
  ('\x1c' ≤ c && c ≤ '\x1f') || c = '\x85' || c = '\xa0' || c = '\u1680' ||
  ('\u2000' ≤ c && c ≤ '\u200a') || c = '\u2028' || c = '\u2029' ||
  c = '\u202f' || c = '\u205f' || c = '\u3000'

/-- Model of Python `str.strip()`: drop leading and trailing whitespace. -/
def pyStrip (l : List Char) : List Char :=
  ((l.dropWhile isSpace).reverse.dropWhile isSpace).reverse

/-- Decimal digit test (regex `\d` on ASCII input). -/
def isDig (c : Char) : Bool :=
  48 ≤ c.toNat && c.toNat ≤ 57

/-- Numeric value of a digit character. -/
def cval (c : Char) : Nat :=
  c.toNat - 48

/-- The digit character for `d` (`0 ≤ d ≤ 9`). -/
def digitChar (d : Nat) : Char :=
  Char.ofNat (48 + d)

/-- Two-digit zero-padded rendering, as produced by `strftime` codes
`%m %d %H %M %S` (their values never exceed 99). -/
def pad2 (n : Nat) : List Char :=
  [digitChar (n / 10), digitChar (n % 10)]

/-- Four-digit rendering of a year `1000 ≤ n ≤ 9999`. -/
def pad4 (n : Nat) : List Char :=
  [digitChar (n / 1000), digitChar (n / 100 % 10), digitChar (n / 10 % 10), digitChar (n % 10)]

/-- Digits of `n`, most significant first; the fuel argument only bounds
the recursion depth (`n` has at most `n + 1` digits). -/
def decReprAux : Nat → Nat → List Char
  | 0, _ => []
  | fuel + 1, n =>
    if n < 10 then [digitChar n]
    else decReprAux fuel (n / 10) ++ [digitChar (n % 10)]

/-- Unpadded decimal rendering, as produced by `strftime` code `%Y` on
glibc platforms (years below 1000 come out without zero padding) and by
an f-string `{y}`. -/
def decRepr (n : Nat) : List Char :=
  decReprAux (n + 1) n

/-! ### Dates and date-times -/

/-- Calendar date, compared lexicographically like Python `datetime.date`. -/
structure Date where
  y : Nat
  m : Nat
  d : Nat
deriving DecidableEq

/-- Lexicographic order on dates, the order Python uses for `date` values. -/
def dateLe (a b : Date) : Prop :=
  a.y < b.y ∨ (a.y = b.y ∧ (a.m < b.m ∨ (a.m = b.m ∧ a.d ≤ b.d)))

instance dateLeDec (a b : Date) : Decidable (dateLe a b) := by
  unfold dateLe
  infer_instance

instance : LinearOrder Date where
  le := dateLe
  le_refl a := by simp [dateLe]
  le_trans a b c hab hbc := by
    cases a; cases b; cases c
    simp only [dateLe] at *
    omega
  le_antisymm a b hab hba := by
    cases a; cases b
    simp only [dateLe] at hab hba
    simp only [Date.mk.injEq]
    omega
  le_total a b := by
    cases a; cases b
    simp only [dateLe]
    omega
  decidableLE := fun a b => dateLeDec a b

/-- Naive date-time (what `datetime.strptime` stores: the literal calendar
fields; `.date()` returns them without any timezone conversion). -/
structure DT where
  y : Nat
  mo : Nat
  dy : Nat
  hh : Nat
  mi : Nat
  ss : Nat
deriving DecidableEq

/-- Model of `.date()` of a parsed datetime: the literal calendar fields. -/
def DT.date (t : DT) : Date :=
  ⟨t.y, t.mo, t.dy⟩

/-- Gregorian leap-year rule, as in `calendar`/`datetime`. -/
def isLeap (y : Nat) : Bool :=
  y % 4 = 0 && (y % 100 ≠ 0 || y % 400 = 0)

/-- Days in a month, as enforced by the `datetime` constructor. -/
def daysInMonth (y m : Nat) : Nat :=
  if m = 2 then (if isLeap y then 29 else 28)
  else if m = 4 || m = 6 || m = 9 || m = 11 then 30 else 31

/-- Validity checks performed by the `datetime` constructor
(`MINYEAR ≤ year ≤ MAXYEAR`, valid month/day, `second ≤ 59`; values such as
second 60 or 61 pass the `_strptime` regex but are rejected here). -/
def validDT (t : DT) : Bool :=
  1 ≤ t.y && t.y ≤ 9999 && 1 ≤ t.mo && t.mo ≤ 12 && 1 ≤ t.dy &&
    t.dy ≤ daysInMonth t.y t.mo && t.hh ≤ 23 && t.mi ≤ 59 && t.ss ≤ 59

/-- The `datetime` construction step at the end of `strptime`. -/
def mkValid (t : DT) : Option DT :=
  if validDT t then some t else none

/-! ### CPython `_strptime` field matchers

CPython compiles a format string to a regex; the directives used by the
program have these (lenient) patterns:
`%Y = \d\d\d\d`, `%m = 1[0-2]|0[1-9]|[1-9]`, `%d = 3[01]|[12]\d|0[1-9]|[1-9]`,
`%H = 2[0-3]|[0-1]\d|\d`, `%M = [0-5]\d|\d`, `%S = 6[0-1]|[0-5]\d|\d`,
`%z = [+-]\d\d:?\d\d(:?\d\d(\.\d{1,6})?)?|Z`.
Literal letters match case-insensitively, whitespace in the format matches
a nonempty whitespace run, and the whole input must be consumed. -/

/-- Directive `%Y`: exactly four digits. -/
def parse4 : List Char → Option (Nat × List Char)
  | a :: b :: c :: d :: r =>
    if isDig a && isDig b && isDig c && isDig d then
      some (cval a * 1000 + cval b * 100 + cval c * 10 + cval d, r)
    else none
  | _ => none

/-- A two-digit-or-one-digit numeric field.  A two-digit prefix is taken
when its value lies in `[lo2, hi2]`; otherwise a single digit with value at
least `lo1` is taken.  This reproduces the regex alternations above
(backtracking never helps, because every field is followed by a
non-digit or end of input). -/
def parse21 (lo2 hi2 lo1 : Nat) : List Char → Option (Nat × List Char)
  | c1 :: c2 :: r =>
    if isDig c1 && isDig c2 && lo2 ≤ 10 * cval c1 + cval c2 && 10 * cval c1 + cval c2 ≤ hi2 then
      some (10 * cval c1 + cval c2, r)
    else if isDig c1 && lo1 ≤ cval c1 then
      some (cval c1, c2 :: r)
    else none
  | [c1] =>
    if isDig c1 && lo1 ≤ cval c1 then some (cval c1, []) else none
  | [] => none

/-- Directive `%d`: the regex `3[0-1]|[1-2]\d|0[1-9]|[1-9]| [1-9]` has, beyond
the numeric alternatives captured by `parse21 1 31 1`, a final space-padded
alternative: one space then a nonzero digit.  When the input starts with a
space only that alternative can apply; otherwise it never can. -/
def parseDay (l : List Char) : Option (Nat × List Char) :=
  match l with
  | c1 :: c2 :: r =>
    if c1 = ' ' then
      if isDig c2 && 1 ≤ cval c2 then some (cval c2, r) else none
    else parse21 1 31 1 (c1 :: c2 :: r)
  | l2 => parse21 1 31 1 l2

/-- Literal character (the separators `-` and `:` of the formats). -/
def parseCh (ch : Char) : List Char → Option (List Char)
  | c :: r => if c = ch then some r else none
  | [] => none

/-- The literal `T` of the JSON formats; `_strptime` compiles the whole
pattern with `IGNORECASE`, so `t` matches too. -/
def parseT : List Char → Option (List Char)
  | c :: r => if c = 'T' || c = 't' then some r else none
  | [] => none

/-- A whitespace character in the format matches a nonempty whitespace
run (`\s+`); used by the CSV format `%Y-%m-%d %H:%M:%S`. -/
def parseWs : List Char → Option (List Char)
  | c :: r => if isSpace c then some (r.dropWhile isSpace) else none
  | [] => none

/-- Pattern `%Y-%m-%d` then a separator then `%H:%M:%S`.  `sepT = true` uses the
literal `T` (JSON formats); `sepT = false` uses whitespace (CSV format). -/
def parseStamp (sepT : Bool) (l : List Char) : Option (DT × List Char) :=
  match parse4 l with
  | none => none
  | some (y, l1) =>
  match parseCh '-' l1 with
  | none => none
  | some l2 =>
  match parse21 1 12 1 l2 with
  | none => none
  | some (mo, l3) =>
  match parseCh '-' l3 with
  | none => none
  | some l4 =>
  match parseDay l4 with
  | none => none
  | some (dy, l5) =>
  match (if sepT then parseT l5 else parseWs l5) with
  | none => none
  | some l6 =>
  match parse21 0 23 0 l6 with
  | none => none
  | some (hh, l7) =>
  match parseCh ':' l7 with
  | none => none
  | some l8 =>
  match parse21 0 59 0 l8 with
  | none => none
  | some (mi, l9) =>
  match parseCh ':' l9 with
  | none => none
  | some l10 =>
  match parse21 0 61 0 l10 with
  | none => none
  | some (ss, l11) => some (⟨y, mo, dy, hh, mi, ss⟩, l11)

/-- Fractional seconds of a UTC offset: 1 to 6 digits, right-padded to
microseconds. -/
def parseFrac (l : List Char) : Option Nat :=
  if l ≠ [] && l.length ≤ 6 && l.all isDig then
    some ((l.foldl (fun a c => a * 10 + cval c) 0) * 10 ^ (6 - l.length))
  else none

/-- Directive `%z`, consuming the rest of the input.  Result is the UTC offset in
microseconds.  Shapes accepted: `Z`, `±HHMM`, `±HH:MM`, `±HHMMSS`,
`±HH:MM:SS`, optionally followed by `.` and 1-6 fractional digits when
seconds are present.  The regex restricts offset minutes and seconds to
`[0-5]\d`, so values 60-99 there make the whole pattern fail.  Mixed colon
usage (`±HHMM:SS`, `±HH:MMSS`) matches the regex but raises `ValueError`
during offset extraction, so it fails here too. -/
def parseZ : List Char → Option Int
  | ['Z'] => some 0
  | s :: d1 :: d2 :: rest =>
    if (s = '+' || s = '-') && isDig d1 && isDig d2 then
      let hh := 10 * cval d1 + cval d2
      let sgn : Int := if s = '-' then -1 else 1
      match rest with
      | ':' :: d3 :: d4 :: rest2 =>
        if isDig d3 && isDig d4 && 10 * cval d3 + cval d4 ≤ 59 then
          let mm := 10 * cval d3 + cval d4
          match rest2 with
          | [] => some (sgn * ((hh * 3600 + mm * 60) * 1000000))
          | ':' :: d5 :: d6 :: rest3 =>
            if isDig d5 && isDig d6 && 10 * cval d5 + cval d6 ≤ 59 then
              let s2 := 10 * cval d5 + cval d6
              match rest3 with
              | [] => some (sgn * ((hh * 3600 + mm * 60 + s2) * 1000000))
              | '.' :: f =>
                match parseFrac f with
                | some fr => some (sgn * ((hh * 3600 + mm * 60 + s2) * 1000000 + fr))
                | none => none
              | _ => none
            else none
          | _ => none
        else none
      | d3 :: d4 :: rest2 =>
        if isDig d3 && isDig d4 && 10 * cval d3 + cval d4 ≤ 59 then
          let mm := 10 * cval d3 + cval d4
          match rest2 with
          | [] => some (sgn * ((hh * 3600 + mm * 60) * 1000000))
          | d5 :: d6 :: rest3 =>
            if isDig d5 && isDig d6 && 10 * cval d5 + cval d6 ≤ 59 then
              let s2 := 10 * cval d5 + cval d6
              match rest3 with
              | [] => some (sgn * ((hh * 3600 + mm * 60 + s2) * 1000000))
              | '.' :: f =>
                match parseFrac f with
                | some fr => some (sgn * ((hh * 3600 + mm * 60 + s2) * 1000000 + fr))
                | none => none
              | _ => none
            else none
          | '.' :: _ => none
          | _ => none
        else none
      | _ => none
    else none
  | _ => none

/-- Model of `datetime.strptime(s, "%Y-%m-%dT%H:%M:%S%z")`: stamp, then offset to
end of input, then the `timezone` range check (strictly less than 24
hours), then `datetime` construction. -/
def strptimeZfmt (l : List Char) : Option DT :=
  match parseStamp true l with
  | none => none
  | some (t, rest) =>
    match parseZ rest with
    | none => none
    | some off => if off.natAbs < 86400000000 then mkValid t else none

/-- Model of `datetime.strptime(s, "%Y-%m-%dT%H:%M:%S")`: stamp consuming all
input, then `datetime` construction. -/
def strptimeNaive (l : List Char) : Option DT :=
  match parseStamp true l with
  | some (t, []) => mkValid t
  | _ => none

/-- Model of `datetime.strptime(s, "%Y-%m-%d %H:%M:%S")` (CSV `order_date`). -/
def strptimeCsv (l : List Char) : Option DT :=
  match parseStamp false l with
  | some (t, []) => mkValid t
  | _ => none

/-- Python `str.endswith("Z")` (case sensitive). -/
def endsZ (l : List Char) : Bool :=
  match l.getLast? with
  | some c => c = 'Z'
  | none => false

/-- Model of `parse_timestamp` (app.py lines 20-49): strip the input, try the
offset format, then the naive format, then — if the string ends in `Z` —
the naive format on the string without its last character; otherwise fail
(`raise ValueError`, modelled as `none`). -/
def parse_timestamp (s : String) : Option DT :=
  let l := pyStrip s.data
  match strptimeZfmt l with
  | some t => some t
  | none =>
    match strptimeNaive l with
    | some t => some t
    | none => if endsZ l then strptimeNaive l.dropLast else none

/-! ### Data model -/

/-- A canonical record.  JSON records are stored verbatim (the loader only
reads these six keys); CSV rows are normalized to this shape.  A missing
dictionary key is `none`. -/
structure Rec where
  user_id : Option String
  organization_id : Option String
  organization_name : Option String
  query_vin : Option String
  time_stamp : Option String
  response_type : Option String
deriving DecidableEq

/-- An export row: the five fields kept by `calculate_stats`
(`response_type` is dropped). -/
structure Row where
  user_id : Option String
  organization_id : Option String
  organization_name : Option String
  query_vin : Option String
  time_stamp : Option String
deriving DecidableEq

/-- The five-field projection performed at app.py lines 208-214. -/
def toRow (r : Rec) : Row :=
  ⟨r.user_id, r.organization_id, r.organization_name, r.query_vin, r.time_stamp⟩

/-! ### Counters

A Python `Counter`/`dict` is modelled as an association list in key
insertion order: `c[k] += n` bumps an existing entry in place or appends a
new entry at the end. -/

/-- Counter update `c[k] += n`. -/
def bump {α : Type} [DecidableEq α] (k : α) (n : Nat) : List (α × Nat) → List (α × Nat)
  | [] => [(k, n)]
  | (w, c) :: t => if w = k then (w, c + n) :: t else (w, c) :: bump k n t

/-- The keys of a counter, in insertion order. -/
def counterKeys {α : Type} (L : List (α × Nat)) : List α :=
  L.map Prod.fst

/-- Sum of all counts. -/
def sumCounts {α : Type} (L : List (α × Nat)) : Nat :=
  (L.map Prod.snd).sum

/-- Lookup `c[k]` with `Counter`'s default of `0`. -/
def counterGet {α : Type} [DecidableEq α] (L : List (α × Nat)) (k : α) : Nat :=
  (((L.find? (fun p => decide (p.1 = k))).map Prod.snd).getD 0)

/-! ### Stable sorting

Python `sorted` and `heapq.nlargest` are stable; we model both with a
stable insertion sort over a boolean comparison `le` (an element `x`
earlier in the input is placed before every later `y` with `le x y`). -/

/-- Insert into a sorted list, before the first element `y` with `le x y`. -/
def insOrd {α : Type} (le : α → α → Bool) (x : α) : List α → List α
  | [] => [x]
  | y :: ys => if le x y then x :: y :: ys else y :: insOrd le x ys

/-- Stable insertion sort. -/
def sortOrd {α : Type} (le : α → α → Bool) : List α → List α
  | [] => []
  | x :: xs => insOrd le x (sortOrd le xs)

/-- Model of `Counter.most_common(5)`: the five largest counts, ordered by
descending count; `heapq.nlargest` breaks ties by input (= first-seen)
order. -/
def most_common5 (L : List (String × Nat)) : List (String × Nat) :=
  (sortOrd (fun a b => decide (b.2 ≤ a.2)) L).take 5

/-! ### Aggregator (`calculate_stats`, app.py lines 171-227) -/

/-- Aggregation state: the `unique_records` dict (key insertion order),
the `per_day` counter and the `vin_counter`. -/
structure SState where
  uniq : List ((Option String × String) × Row)
  perDay : List (Date × Nat)
  vins : List (String × Nat)
deriving DecidableEq

/-- Processing of one record of `data` inside the `calculate_stats` loop. -/
def stepStat (org : String) (dFrom dTo : Date) (s : SState) (item : Rec) : SState :=
  if org ≠ "" ∧ item.organization_name ≠ some org then s
  else
    match item.time_stamp with
    | none => s
    | some ts_str =>
      if ts_str = "" then s
      else
        match parse_timestamp ts_str with
        | none => s
        | some ts =>
          let d := ts.date
          if ¬ (dFrom ≤ d ∧ d ≤ dTo) then s
          else
            let key : Option String × String := (item.query_vin, ts_str)
            if key ∈ s.uniq.map Prod.fst then s
            else
              { uniq := s.uniq ++ [(key, toRow item)]
                perDay := bump d 1 s.perDay
                vins :=
                  match item.query_vin with
                  | some v => if v = "" then s.vins else bump v 1 s.vins
                  | none => s.vins }

/-- The whole `calculate_stats` run: returns
`(export_rows, per_day, top_vins)`. -/
def calculate_stats (data : List Rec) (org : String) (dFrom dTo : Date) :
    List Row × List (Date × Nat) × List (String × Nat) :=
  let s := data.foldl (stepStat org dFrom dTo) ⟨[], [], []⟩
  (s.uniq.map Prod.snd, s.perDay, most_common5 s.vins)

/-! ### Record loader (`load_all_data`, app.py lines 63-169) -/

/-- A CSV row as produced by `csv.DictReader`: a missing column is `none`. -/
structure CsvRow where
  vin : Option String
  order_date : Option String
  organisation : Option String
  order_client : Option String
deriving DecidableEq

/-- Model of `(row.get(col) or "").strip()`. -/
def stripStr (s : Option String) : String :=
  String.mk (pyStrip (s.getD "").data)

/-- The content of a selected file, as seen after the I/O layer:
a JSON file that deserialized to a list of records, a JSON file that
failed to load or was not a list (skipped with a warning), a CSV file
with its rows, or an unreadable CSV file (skipped with a warning). -/
inductive FileContent where
  | jsonFile (recs : List Rec)
  | jsonBad
  | csvFile (rows : List CsvRow)
  | csvBad
deriving DecidableEq

/-- Loader state: the growing catalog, the `org_id_to_name` dict (key
insertion order, first-seen wins) and the running min/max date. -/
structure LState where
  data : List Rec
  table : List (String × String)
  minD : Option Date
  maxD : Option Date
deriving DecidableEq

/-- Model of `update_min_max` (app.py lines 73-80). -/
def update_min_max (st : LState) (d : Date) : LState :=
  { st with
    minD := some (match st.minD with | none => d | some m => if d < m then d else m)
    maxD := some (match st.maxD with | none => d | some m => if m < d then d else m) }

/-- Dictionary lookup in the `org_id_to_name` table. -/
def tableLookup (t : List (String × String)) (k : String) : Option String :=
  (t.find? (fun p => decide (p.1 = k))).map Prod.snd

/-- Processing of one JSON record (app.py lines 95-111): skip when
`time_stamp` is missing/empty or fails to parse; otherwise update the
min/max date, opportunistically learn an id→name pair (both truthy, id
not yet known), and append the record unmodified. -/
def stepJson (st : LState) (r : Rec) : LState :=
  match r.time_stamp with
  | none => st
  | some ts =>
    if ts = "" then st
    else
      match parse_timestamp ts with
      | none => st
      | some dt =>
        let st1 := update_min_max st dt.date
        let table2 :=
          match r.organization_id, r.organization_name with
          | some oid, some oname =>
            if oid ≠ "" && oname ≠ "" && (tableLookup st1.table oid).isNone then
              st1.table ++ [(oid, oname)]
            else st1.table
          | _, _ => st1.table
        { st1 with table := table2, data := st1.data ++ [r] }

/-- Model of `dt.strftime("%Y-%m-%dT%H:%M:%S+0000")`: the canonical timestamp
synthesized for CSV rows.  `%Y` is unpadded below 1000 on glibc. -/
def csvTs (dt : DT) : String :=
  String.mk (decRepr dt.y ++ '-' :: (pad2 dt.mo ++ '-' :: (pad2 dt.dy ++
    'T' :: (pad2 dt.hh ++ ':' :: (pad2 dt.mi ++ ':' :: (pad2 dt.ss ++
    ['+', '0', '0', '0', '0']))))))

/-- Processing of one CSV row (app.py lines 118-145): strip the four
columns, skip on empty `vin`/`order_date`, parse `order_date` with
`%Y-%m-%d %H:%M:%S`, update the min/max date, synthesize the canonical
timestamp, resolve the organization name through the current table with
the raw id as fallback, and append the normalized record. -/
def stepCsv (st : LState) (row : CsvRow) : LState :=
  let vin := stripStr row.vin
  let od := stripStr row.order_date
  let oid := stripStr row.organisation
  let uid := stripStr row.order_client
  if vin = "" || od = "" then st
  else
    match strptimeCsv od.data with
    | none => st
    | some dt =>
      let st1 := update_min_max st dt.date
      let rc : Rec :=
        ⟨some uid, some oid, some ((tableLookup st.table oid).getD oid),
         some vin, some (csvTs dt), none⟩
      { st1 with data := st1.data ++ [rc] }

/-- Dispatch on one selected file. -/
def loadFile (st : LState) (f : String × FileContent) : LState :=
  match f.2 with
  | .jsonFile recs => recs.foldl stepJson st
  | .jsonBad => st
  | .csvFile rows => rows.foldl stepCsv st
  | .csvBad => st

/-- Process a list of files in the given order. -/
def loadFiles (st : LState) (files : List (String × FileContent)) : LState :=
  files.foldl loadFile st

/-- Model of `sorted(selected_files)`: lexicographically sorted filenames. -/
def sortFiles (files : List (String × FileContent)) : List (String × FileContent) :=
  sortOrd (fun a b => decide (a.1 ≤ b.1)) files

/-- Truthy `organization_name` of a record, if any. -/
def orgNameOf (r : Rec) : Option String :=
  match r.organization_name with
  | some n => if n = "" then none else some n
  | none => none

/-- Model of the sorted distinct truthy organization names. -/
def orgNamesOf (data : List Rec) : List String :=
  sortOrd (fun a b => decide (a ≤ b)) (data.filterMap orgNameOf).dedup

/-- Model of `load_all_data` (app.py lines 63-169): process the selected files in
filename-sorted order, then return the catalog, the sorted organization
names, and the observed date span. -/
def load_all_data (files : List (String × FileContent)) :
    List Rec × List String × Option Date × Option Date :=
  let st := loadFiles ⟨[], [], none, none⟩ (sortFiles files)
  (st.data, orgNamesOf st.data, st.minD, st.maxD)

/-! ### Chart data shaper (app.py lines 400-426) -/

/-- Model of `d.strftime("%d.%m.")`. -/
def dayLabel (d : Date) : String :=
  String.mk (pad2 d.d ++ '.' :: (pad2 d.m ++ ['.']))

/-- The f-string label `f"{m:02d}.{y}"` for a `(year, month)` bucket. -/
def monthLabel (k : Nat × Nat) : String :=
  String.mk (pad2 k.2 ++ '.' :: decRepr k.1)

/-- Monthly re-bucketing: fold the per-day counter (in insertion order)
into a `(year, month)` counter. -/
def perMonth (perDay : List (Date × Nat)) : List ((Nat × Nat) × Nat) :=
  perDay.foldl (fun acc p => bump (p.1.y, p.1.m) p.2 acc) []

/-- Lexicographic order on `(year, month)` keys, as Python compares
tuples. -/
def ymLe (a b : Nat × Nat) : Bool :=
  decide (a.1 < b.1 ∨ (a.1 = b.1 ∧ a.2 ≤ b.2))

/-- The labeled bar series of the first chart: one bucket per day
(sorted by date) when at most 31 distinct days carry data, otherwise one
bucket per `(year, month)` (sorted lexicographically). -/
def shapePerDayChart (perDay : List (Date × Nat)) : List (String × Nat) :=
  if perDay.length ≤ 31 then
    (sortOrd (fun a b => decide (a ≤ b)) (perDay.map Prod.fst)).map
      (fun d => (dayLabel d, counterGet perDay d))
  else
    let pm := perMonth perDay
    (sortOrd ymLe (pm.map Prod.fst)).map (fun k => (monthLabel k, counterGet pm k))

/-! ### The spec's literal grammars

These definitions follow the words of the specification (§4.1 and §4.2),
not the source; they exist to compare the spec's strict grammar claims
with the actual parser. -/

/-- The spec text `YYYY-MM-DDTHH:MM:SS`: exactly nineteen characters,
digits in the `Y/M/D/H/M/S` positions, literal separators. -/
def specCore (l : List Char) : Bool :=
  match l with
  | [y1, y2, y3, y4, '-', m1, m2, '-', d1, d2, 'T', h1, h2, ':', n1, n2, ':', s1, s2] =>
    isDig y1 && isDig y2 && isDig y3 && isDig y4 && isDig m1 && isDig m2 &&
      isDig d1 && isDig d2 && isDig h1 && isDig h2 && isDig n1 && isDig n2 &&
      isDig s1 && isDig s2
  | _ => false

/-- The spec text `±HHMM`: a sign then four digits. -/
def specOff (l : List Char) : Bool :=
  match l with
  | [sg, o1, o2, o3, o4] =>
    (sg = '+' || sg = '-') && isDig o1 && isDig o2 && isDig o3 && isDig o4
  | _ => false

/-- Spec grammar 1: `YYYY-MM-DDTHH:MM:SS±HHMM`. -/
def specG1 (l : List Char) : Bool :=
  specCore (l.take 19) && specOff (l.drop 19)

/-- Spec grammar 2: `YYYY-MM-DDTHH:MM:SS`. -/
def specG2 (l : List Char) : Bool :=
  specCore l

/-- Spec grammar 3: `YYYY-MM-DDTHH:MM:SSZ`. -/
def specG3 (l : List Char) : Bool :=
  endsZ l && specCore l.dropLast

/-- The spec text `YYYY-MM-DD HH:MM:SS` for CSV `order_date` (§4.2):
exactly nineteen characters with a single space separator. -/
def specCsvDate (l : List Char) : Bool :=
  match l with
  | [y1, y2, y3, y4, '-', m1, m2, '-', d1, d2, ' ', h1, h2, ':', n1, n2, ':', s1, s2] =>
    isDig y1 && isDig y2 && isDig y3 && isDig y4 && isDig m1 && isDig m2 &&
      isDig d1 && isDig d2 && isDig h1 && isDig h2 && isDig n1 && isDig n2 &&
      isDig s1 && isDig s2
  | _ => false

/-! ### Derived notions used to state the claims -/

/-- The raw `time_stamp` string of a record (`""` when the key is absent;
every record that passes the aggregator's guards has a nonempty one). -/
def tsOf (r : Rec) : String :=
  r.time_stamp.getD ""

/-- The deduplication key `(query_vin, time_stamp)` used by
`calculate_stats`. -/
def recKey (r : Rec) : Option String × String :=
  (r.query_vin, tsOf r)

/-- The date the aggregator derives from a record (meaningful for records
whose timestamp parses). -/
def dateOf (r : Rec) : Date :=
  (((parse_timestamp (tsOf r)).map DT.date).getD ⟨0, 0, 0⟩)

/-- All the aggregator's per-record guards: organization filter, presence
of a truthy `time_stamp`, a successful re-parse, and the inclusive date
range test. -/
def passes (org : String) (dFrom dTo : Date) (item : Rec) : Bool :=
  (decide (org = "") || decide (item.organization_name = some org)) &&
    (match item.time_stamp with
     | none => false
     | some ts =>
       (!decide (ts = "")) &&
         (match parse_timestamp ts with
          | none => false
          | some t => decide (dFrom ≤ t.date ∧ t.date ≤ dTo)))

/-- The `unique_records` dict entry created for a freshly seen key. -/
def embedRec (r : Rec) : (Option String × String) × Row :=
  (recKey r, toRow r)

/-- The vin-counter update for a freshly retained record. -/
def bumpVins (item : Rec) (vins : List (String × Nat)) : List (String × Nat) :=
  match item.query_vin with
  | some v => if v = "" then vins else bump v 1 vins
  | none => vins

/-- Append a record unless its key was already seen. -/
def ddKeep (acc : List Rec) (r : Rec) : List Rec :=
  if recKey r ∈ acc.map recKey then acc else acc ++ [r]

/-- Keep the first record for each `(query_vin, time_stamp)` key. -/
def dedupByKey (l : List Rec) : List Rec :=
  l.foldl ddKeep []

/-- One step of `dedupByKey` fused with the aggregator's guards. -/
def ddStep (org : String) (dFrom dTo : Date) (acc : List Rec) (r : Rec) : List Rec :=
  if passes org dFrom dTo r then ddKeep acc r else acc

/-- The truthy `query_vin` of an export row, if any (only these are
counted in the vin ranking). -/
def goodVin (r : Row) : Option String :=
  match r.query_vin with
  | some v => if v = "" then none else some v
  | none => none

/-- Accumulate the distinct truthy vins of a row list in first-seen
order. -/
def addVin (acc : List String) (r : Row) : List String :=
  match goodVin r with
  | some v => if v ∈ acc then acc else acc ++ [v]
  | none => acc

/-- The distinct truthy vins of a row list, in first-seen order. -/
def vinAcc (rows : List Row) : List String :=
  rows.foldl addVin []

/-- Index of the first row carrying `query_vin = v` (the row list's length
when there is none). -/
def fsIdx (rows : List Row) (v : String) : Nat :=
  rows.findIdx (fun r => decide (r.query_vin = some v))

/-- The canonical zero-padded rendering `YYYY-MM-DDTHH:MM:SS` of a
date-time. -/
def canonStamp (t : DT) : List Char :=
  pad4 t.y ++ '-' :: (pad2 t.mo ++ '-' :: (pad2 t.dy ++
    'T' :: (pad2 t.hh ++ ':' :: (pad2 t.mi ++ ':' :: pad2 t.ss))))

/-- The rendition with an explicit `+0000` offset. -/
def stampOffset (t : DT) : String :=
  String.mk (canonStamp t ++ ['+', '0', '0', '0', '0'])

/-- The rendition with a `Z` suffix. -/
def stampZulu (t : DT) : String :=
  String.mk (canonStamp t ++ ['Z'])

/-- The bare offset-naive rendition. -/
def stampBare (t : DT) : String :=
  String.mk (canonStamp t)

/-- A catalog record observed at date `d`: either its `time_stamp`
re-parses to a date-time with date `d`, or it is a CSV-synthesized
timestamp of a year below 1000 (whose unpadded `%Y` rendering does not
re-parse) with embedded date `d`. -/
def obsGood (r : Rec) (d : Date) : Prop :=
  (∃ dt, parse_timestamp (tsOf r) = some dt ∧ dt.date = d) ∨
    (∃ dt, r.time_stamp = some (csvTs dt) ∧ dt.y < 1000 ∧ validDT dt = true ∧ dt.date = d)

/-- The date-span invariant of the loader state. -/
def spanInv (st : LState) : Prop :=
  (st.minD = none ↔ st.data = []) ∧ (st.maxD = none ↔ st.data = []) ∧
    ∀ r ∈ st.data, ∃ d : Date, obsGood r d ∧
      (∃ dmin, st.minD = some dmin ∧ dmin ≤ d) ∧
      (∃ dmax, st.maxD = some dmax ∧ d ≤ dmax)

/-- Whether `load_json` keeps a record: a truthy `time_stamp` that
parses. -/
def jsonKept (r : Rec) : Bool :=
  match r.time_stamp with
  | none => false
  | some ts => !decide (ts = "") && (parse_timestamp ts).isSome

/-- The id→name learning rule of `load_json`: record a pair only when
both fields are truthy and the id is not yet known (first-seen wins). -/
def learnOrg (t : List (String × String)) (r : Rec) : List (String × String) :=
  match r.organization_id, r.organization_name with
  | some oid, some oname =>
    if oid ≠ "" && oname ≠ "" && (tableLookup t oid).isNone then t ++ [(oid, oname)]
    else t
  | _, _ => t

/-! ### Concrete sample data used by the witness theorems -/

/-- A JSON-origin record (spec §8, scenario A). -/
def sampleRec1 : Rec :=
  ⟨some "u1", some "1", some "Acme", some "VIN1", some "2025-11-01T07:31:56+0000", none⟩

/-- A record sharing `sampleRec1`'s dedup key but with another user. -/
def sampleRec2 : Rec :=
  ⟨some "u2", some "1", some "Acme", some "VIN1", some "2025-11-01T07:31:56+0000", none⟩

/-- A JSON-origin record carrying an `organization_id` but no name. -/
def sampleRecNoName : Rec :=
  ⟨some "u1", some "1", none, some "VIN1", some "2025-11-01T07:31:56+0000", none⟩

/-- The CSV row of spec §8, scenario D. -/
def sampleCsvRow : CsvRow :=
  ⟨some "XYZ", some "2025-01-02 10:00:00", some "5", some "u1"⟩

/-- A CSV row whose `order_date` does not match the spec's strict
`YYYY-MM-DD HH:MM:SS` grammar but parses under `_strptime` leniency. -/
def lenientCsvRow : CsvRow :=
  ⟨some "XYZ", some "2025-1-2 10:00:00", some "5", some "u1"⟩

/-- A CSV row whose `order_date` has a zero-padded three-digit year. -/
def oldYearCsvRow : CsvRow :=
  ⟨some "XYZ", some "0999-01-01 00:00:00", some "5", some "u1"⟩

/-- A per-day counter with thirty-two distinct days, all in year 999:
twenty-eight days of January and four of February. -/
def c8perDay : List (Date × Nat) :=
  (List.range 28).map (fun i => ((⟨999, 1, i + 1⟩ : Date), 1)) ++
  (List.range 4).map (fun i => ((⟨999, 2, i + 1⟩ : Date), 1))

/-! ## Generic lemmas -/

theorem foldl_inv {σ α : Type} (P : σ → Prop) (f : σ → α → σ)
    (h : ∀ s a, P s → P (f s a)) : ∀ (l : List α) (s : σ), P s → P (l.foldl f s)
  | [], _, hs => hs
  | a :: l, s, hs => foldl_inv P f h l (f s a) (h s a hs)

theorem counterKeys_bump_mem {α : Type} [DecidableEq α] (k : α) (n : Nat) :
    ∀ L : List (α × Nat), k ∈ counterKeys L → counterKeys (bump k n L) = counterKeys L
  | [], h => by simp [counterKeys] at h
  | (w, c) :: t, hm => by
    by_cases h : w = k
    · subst h
      simp [bump, counterKeys]
    · have hne : ¬ k = w := fun hk => h hk.symm
      have hm2 : k ∈ counterKeys t := by
        simpa [counterKeys, hne] using hm
      have hb : bump k n ((w, c) :: t) = (w, c) :: bump k n t := by
        simp [bump, h]
      rw [hb]
      show w :: counterKeys (bump k n t) = w :: counterKeys t
      rw [counterKeys_bump_mem k n t hm2]

theorem counterKeys_bump_not_mem {α : Type} [DecidableEq α] (k : α) (n : Nat) :
    ∀ L : List (α × Nat), k ∉ counterKeys L → counterKeys (bump k n L) = counterKeys L ++ [k]
  | [], _ => by simp [bump, counterKeys]
  | (w, c) :: t, hm => by
    by_cases h : w = k
    · subst h
      simp [counterKeys] at hm
    · have hm2 : k ∉ counterKeys t := by
        intro hk
        exact hm (by simp [counterKeys] at hk ⊢; exact Or.inr hk)
      have hb : bump k n ((w, c) :: t) = (w, c) :: bump k n t := by
        simp [bump, h]
      rw [hb]
      show w :: counterKeys (bump k n t) = w :: (counterKeys t ++ [k])
      rw [counterKeys_bump_not_mem k n t hm2]

theorem sumCounts_bump {α : Type} [DecidableEq α] (k : α) (n : Nat) :
    ∀ L : List (α × Nat), sumCounts (bump k n L) = sumCounts L + n
  | [] => by simp [bump, sumCounts]
  | (w, c) :: t => by
    by_cases h : w = k
    · subst h
      simp [bump, sumCounts]
      omega
    · have ih := sumCounts_bump k n t
      simp [bump, sumCounts, h] at ih ⊢
      omega

theorem counterGet_head {α : Type} [DecidableEq α] (k : α) (c : Nat) (t : List (α × Nat)) :
    counterGet ((k, c) :: t) k = c := by
  simp [counterGet, List.find?]

theorem counterGet_tail {α : Type} [DecidableEq α] (k w : α) (c : Nat) (t : List (α × Nat))
    (h : ¬ w = k) : counterGet ((w, c) :: t) k = counterGet t k := by
  simp [counterGet, List.find?, h]

theorem mem_insOrd {α : Type} (le : α → α → Bool) (x z : α) :
    ∀ l : List α, z ∈ insOrd le x l ↔ z = x ∨ z ∈ l
  | [] => by simp [insOrd]
  | y :: ys => by
    by_cases h : le x y
    · simp [insOrd, h]
    · have ih := mem_insOrd le x z ys
      simp [insOrd, h, ih]
      tauto

theorem mem_sortOrd {α : Type} (le : α → α → Bool) (z : α) :
    ∀ l : List α, z ∈ sortOrd le l ↔ z ∈ l
  | [] => by simp [sortOrd]
  | x :: xs => by
    have ih := mem_sortOrd le z xs
    simp [sortOrd, mem_insOrd, ih]

theorem length_insOrd {α : Type} (le : α → α → Bool) (x : α) :
    ∀ l : List α, (insOrd le x l).length = l.length + 1
  | [] => by simp [insOrd]
  | y :: ys => by
    by_cases h : le x y
    · simp [insOrd, h]
    · simp [insOrd, h, length_insOrd le x ys]

theorem length_sortOrd {α : Type} (le : α → α → Bool) :
    ∀ l : List α, (sortOrd le l).length = l.length
  | [] => by simp [sortOrd]
  | x :: xs => by
    simp [sortOrd, length_insOrd, length_sortOrd le xs]

theorem perm_insOrd {α : Type} (le : α → α → Bool) (x : α) :
    ∀ l : List α, (insOrd le x l).Perm (x :: l)
  | [] => by simp [insOrd]
  | y :: ys => by
    by_cases h : le x y
    · simp [insOrd, h]
    · have ih := perm_insOrd le x ys
      have h1 : (y :: insOrd le x ys).Perm (y :: x :: ys) := ih.cons y
      have h2 : (y :: x :: ys).Perm (x :: y :: ys) := List.Perm.swap x y ys
      simpa [insOrd, h] using h1.trans h2

theorem perm_sortOrd {α : Type} (le : α → α → Bool) :
    ∀ l : List α, (sortOrd le l).Perm l
  | [] => by simp [sortOrd]
  | x :: xs => by
    have ih := perm_sortOrd le xs
    exact (perm_insOrd le x (sortOrd le xs)).trans (ih.cons x)

theorem pairwise_insOrd {α : Type} (le : α → α → Bool)
    (htot : ∀ a b, le a b || le b a) (htrans : ∀ a b c, le a b → le b c → le a c)
    (x : α) : ∀ l : List α, l.Pairwise (fun a b => le a b = true) →
      (insOrd le x l).Pairwise (fun a b => le a b = true)
  | [], _ => by simp [insOrd]
  | y :: ys, hp => by
    rcases List.pairwise_cons.mp hp with ⟨hy, hys⟩
    by_cases h : le x y
    · simp only [insOrd, if_pos h]
      refine List.pairwise_cons.mpr ⟨?_, hp⟩
      intro z hz
      rcases List.mem_cons.mp hz with rfl | hz
      · exact h
      · exact htrans x y z h (hy z hz)
    · have hyx : le y x = true := by
        have := htot x y
        simp [h] at this
        exact this
      simp only [insOrd, if_neg h]
      refine List.pairwise_cons.mpr ⟨?_, pairwise_insOrd le htot htrans x ys hys⟩
      intro z hz
      rcases (mem_insOrd le x z ys).mp hz with rfl | hz
      · exact hyx
      · exact hy z hz

theorem pairwise_sortOrd {α : Type} (le : α → α → Bool)
    (htot : ∀ a b, le a b || le b a) (htrans : ∀ a b c, le a b → le b c → le a c) :
    ∀ l : List α, (sortOrd le l).Pairwise (fun a b => le a b = true)
  | [] => by simp [sortOrd]
  | x :: xs =>
    pairwise_insOrd le htot htrans x (sortOrd le xs) (pairwise_sortOrd le htot htrans xs)

theorem pairwise_insOrd_rank {β : Type} (cnt rank : β → Nat) (x : β) :
    ∀ S : List β,
      S.Pairwise (fun a b => cnt b ≤ cnt a ∧ (cnt a = cnt b → rank a < rank b)) →
      (∀ z ∈ S, rank x < rank z) →
      (insOrd (fun a b => decide (cnt b ≤ cnt a)) x S).Pairwise
        (fun a b => cnt b ≤ cnt a ∧ (cnt a = cnt b → rank a < rank b))
  | [], _, _ => by simp [insOrd]
  | y :: ys, hp, hrk => by
    rcases List.pairwise_cons.mp hp with ⟨hy, hys⟩
    by_cases h : cnt y ≤ cnt x
    · have hle : (fun a b => decide (cnt b ≤ cnt a)) x y = true := by
        simpa using h
      simp only [insOrd, hle, if_pos]
      refine List.pairwise_cons.mpr ⟨?_, hp⟩
      intro z hz
      rcases List.mem_cons.mp hz with rfl | hz
      · exact ⟨h, fun _ => hrk z (by simp)⟩
      · exact ⟨le_trans (hy z hz).1 h, fun _ => hrk z (by simp [hz])⟩
    · have hle : ¬ ((fun a b => decide (cnt b ≤ cnt a)) x y = true) := by
        simpa using h
      simp only [insOrd, if_neg hle]
      refine List.pairwise_cons.mpr
        ⟨?_, pairwise_insOrd_rank cnt rank x ys hys (fun z hz => hrk z (by simp [hz]))⟩
      intro z hz
      rcases (mem_insOrd _ x z ys).mp hz with rfl | hz
      · exact ⟨by omega, fun he => by omega⟩
      · exact hy z hz

theorem pairwise_sortOrd_rank {β : Type} (cnt rank : β → Nat) :
    ∀ L : List β, L.Pairwise (fun a b => rank a < rank b) →
      (sortOrd (fun a b => decide (cnt b ≤ cnt a)) L).Pairwise
        (fun a b => cnt b ≤ cnt a ∧ (cnt a = cnt b → rank a < rank b))
  | [], _ => by simp [sortOrd]
  | x :: xs, hp => by
    rcases List.pairwise_cons.mp hp with ⟨hx, hxs⟩
    exact pairwise_insOrd_rank cnt rank x (sortOrd _ xs)
      (pairwise_sortOrd_rank cnt rank xs hxs)
      (fun z hz => hx z ((mem_sortOrd _ z xs).mp hz))

/-! ## Digit and rendering lemmas -/

theorem isDig_digitChar (d : Nat) (h : d ≤ 9) : isDig (digitChar d) = true := by
  interval_cases d <;> decide

theorem cval_digitChar (d : Nat) (h : d ≤ 9) : cval (digitChar d) = d := by
  interval_cases d <;> decide

theorem not_space_digitChar (d : Nat) (h : d ≤ 9) : isSpace (digitChar d) = false := by
  interval_cases d <;> decide

theorem parse4_pad4 (y : Nat) (h : y ≤ 9999) (r : List Char) :
    parse4 (pad4 y ++ r) = some (y, r) := by
  have h1 : y / 1000 ≤ 9 := by omega
  have h2 : y / 100 % 10 ≤ 9 := by omega
  have h3 : y / 10 % 10 ≤ 9 := by omega
  have h4 : y % 10 ≤ 9 := by omega
  show parse4 (digitChar (y / 1000) :: digitChar (y / 100 % 10) ::
    digitChar (y / 10 % 10) :: digitChar (y % 10) :: r) = _
  simp only [parse4]
  rw [isDig_digitChar _ h1, isDig_digitChar _ h2, isDig_digitChar _ h3, isDig_digitChar _ h4,
    cval_digitChar _ h1, cval_digitChar _ h2, cval_digitChar _ h3, cval_digitChar _ h4]
  simp
  omega

theorem parse21_pad2 (lo2 hi2 lo1 v : Nat) (hlo : lo2 ≤ v) (hhi : v ≤ hi2) (h99 : v ≤ 99)
    (r : List Char) : parse21 lo2 hi2 lo1 (pad2 v ++ r) = some (v, r) := by
  have ha : v / 10 ≤ 9 := by omega
  have hb : v % 10 ≤ 9 := by omega
  show parse21 lo2 hi2 lo1 (digitChar (v / 10) :: digitChar (v % 10) :: r) = _
  simp only [parse21]
  rw [isDig_digitChar _ ha, isDig_digitChar _ hb, cval_digitChar _ ha, cval_digitChar _ hb]
  have hv : 10 * (v / 10) + v % 10 = v := by omega
  rw [hv]
  simp [hlo, hhi]

theorem digitChar_ne_space (d : Nat) (h : d ≤ 9) : digitChar d ≠ ' ' := by
  interval_cases d <;> decide

theorem parseDay_pad2 (v : Nat) (h1 : 1 ≤ v) (h2 : v ≤ 31) (r : List Char) :
    parseDay (pad2 v ++ r) = some (v, r) := by
  have ha : v / 10 ≤ 9 := by omega
  show parseDay (digitChar (v / 10) :: digitChar (v % 10) :: r) = _
  simp only [parseDay]
  rw [if_neg (digitChar_ne_space _ ha)]
  exact parse21_pad2 1 31 1 v h1 h2 (by omega) r

theorem parseCh_cons (ch : Char) (r : List Char) : parseCh ch (ch :: r) = some r := by
  simp [parseCh]

theorem parseT_cons (r : List Char) : parseT ('T' :: r) = some r := by
  simp [parseT]

theorem daysInMonth_le_31 (y m : Nat) : daysInMonth y m ≤ 31 := by
  unfold daysInMonth
  split
  · split <;> omega
  · split <;> omega

theorem validDT_bounds (t : DT) (h : validDT t = true) :
    1 ≤ t.y ∧ t.y ≤ 9999 ∧ 1 ≤ t.mo ∧ t.mo ≤ 12 ∧ 1 ≤ t.dy ∧ t.dy ≤ 31 ∧
      t.hh ≤ 23 ∧ t.mi ≤ 59 ∧ t.ss ≤ 59 := by
  have h31 := daysInMonth_le_31 t.y t.mo
  simp [validDT] at h
  omega

theorem parseStamp_canon (t : DT) (r : List Char) (hy : t.y ≤ 9999)
    (hmo1 : 1 ≤ t.mo) (hmo2 : t.mo ≤ 12) (hdy1 : 1 ≤ t.dy) (hdy2 : t.dy ≤ 31)
    (hh2 : t.hh ≤ 23) (hmi2 : t.mi ≤ 59) (hss2 : t.ss ≤ 61) :
    parseStamp true (canonStamp t ++ r) = some (t, r) := by
  unfold canonStamp
  simp only [List.append_assoc, List.cons_append]
  simp only [parseStamp, parse4_pad4 t.y hy, parseCh_cons,
    parse21_pad2 1 12 1 t.mo hmo1 hmo2 (by omega),
    parseDay_pad2 t.dy hdy1 hdy2,
    if_true, parseT_cons,
    parse21_pad2 0 23 0 t.hh (by omega) hh2 (by omega),
    parse21_pad2 0 59 0 t.mi (by omega) hmi2 (by omega),
    parse21_pad2 0 61 0 t.ss (by omega) hss2 (by omega)]

theorem mkValid_of_valid (t : DT) (h : validDT t = true) : mkValid t = some t := by
  simp [mkValid, h]

theorem strptimeZfmt_offset0 (t : DT) (h : validDT t = true) :
    strptimeZfmt (canonStamp t ++ ['+', '0', '0', '0', '0']) = some t := by
  obtain ⟨b1, b2, b3, b4, b5, b6, b7, b8, b9⟩ := validDT_bounds t h
  unfold strptimeZfmt
  rw [parseStamp_canon t _ b2 b3 b4 b5 b6 b7 b8 (by omega)]
  show (match parseZ ['+', '0', '0', '0', '0'] with
    | none => none
    | some off => if off.natAbs < 86400000000 then mkValid t else none) = some t
  rw [show parseZ ['+', '0', '0', '0', '0'] = some 0 from by decide]
  simp [mkValid_of_valid t h]

theorem strptimeZfmt_zulu (t : DT) (h : validDT t = true) :
    strptimeZfmt (canonStamp t ++ ['Z']) = some t := by
  obtain ⟨b1, b2, b3, b4, b5, b6, b7, b8, b9⟩ := validDT_bounds t h
  unfold strptimeZfmt
  rw [parseStamp_canon t _ b2 b3 b4 b5 b6 b7 b8 (by omega)]
  show (match parseZ ['Z'] with
    | none => none
    | some off => if off.natAbs < 86400000000 then mkValid t else none) = some t
  rw [show parseZ ['Z'] = some 0 from by decide]
  simp [mkValid_of_valid t h]

theorem strptimeNaive_canon (t : DT) (h : validDT t = true) :
    strptimeNaive (canonStamp t) = some t := by
  obtain ⟨b1, b2, b3, b4, b5, b6, b7, b8, b9⟩ := validDT_bounds t h
  unfold strptimeNaive
  rw [show canonStamp t = canonStamp t ++ [] from by simp,
    parseStamp_canon t [] b2 b3 b4 b5 b6 b7 b8 (by omega)]
  exact mkValid_of_valid t h

theorem dropWhile_no_space (l : List Char) (h : ∀ c ∈ l, isSpace c = false) :
    l.dropWhile isSpace = l := by
  cases l with
  | nil => rfl
  | cons c cs => simp [List.dropWhile_cons, h c (by simp)]

theorem pyStrip_no_space (l : List Char) (h : ∀ c ∈ l, isSpace c = false) :
    pyStrip l = l := by
  unfold pyStrip
  rw [dropWhile_no_space l h,
    dropWhile_no_space l.reverse (fun c hc => h c (List.mem_reverse.mp hc)),
    List.reverse_reverse]

theorem no_space_pad2 (n : Nat) (h : n ≤ 99) : ∀ c ∈ pad2 n, isSpace c = false := by
  intro c hc
  rcases (by simpa [pad2] using hc : c = digitChar (n / 10) ∨ c = digitChar (n % 10)) with
    rfl | rfl
  · exact not_space_digitChar _ (by omega)
  · exact not_space_digitChar _ (by omega)

theorem no_space_pad4 (n : Nat) (h : n ≤ 9999) : ∀ c ∈ pad4 n, isSpace c = false := by
  intro c hc
  rcases (by simpa [pad4] using hc :
      c = digitChar (n / 1000) ∨ c = digitChar (n / 100 % 10) ∨
        c = digitChar (n / 10 % 10) ∨ c = digitChar (n % 10)) with rfl | rfl | rfl | rfl
  · exact not_space_digitChar _ (by omega)
  · exact not_space_digitChar _ (by omega)
  · exact not_space_digitChar _ (by omega)
  · exact not_space_digitChar _ (by omega)

theorem no_space_canonStamp (t : DT) (hy : t.y ≤ 9999) (hmo : t.mo ≤ 99) (hdy : t.dy ≤ 99)
    (hhh : t.hh ≤ 99) (hmi : t.mi ≤ 99) (hss : t.ss ≤ 99) :
    ∀ c ∈ canonStamp t, isSpace c = false := by
  intro c hc
  simp only [canonStamp, List.mem_append, List.mem_cons] at hc
  rcases hc with h | rfl | h | rfl | h | rfl | h | rfl | h | rfl | h
  · exact no_space_pad4 _ hy c h
  · decide
  · exact no_space_pad2 _ hmo c h
  · decide
  · exact no_space_pad2 _ hdy c h
  · decide
  · exact no_space_pad2 _ hhh c h
  · decide
  · exact no_space_pad2 _ hmi c h
  · decide
  · exact no_space_pad2 _ hss c h

theorem parse_timestamp_eq (s : String) :
    parse_timestamp s =
      (match strptimeZfmt (pyStrip s.data) with
       | some t => some t
       | none =>
         match strptimeNaive (pyStrip s.data) with
         | some t => some t
         | none =>
           if endsZ (pyStrip s.data) then strptimeNaive (pyStrip s.data).dropLast
           else none) := rfl

theorem no_space_offset_tail (t : DT) (hy : t.y ≤ 9999) (hmo : t.mo ≤ 99) (hdy : t.dy ≤ 99)
    (hhh : t.hh ≤ 99) (hmi : t.mi ≤ 99) (hss : t.ss ≤ 99) :
    ∀ c ∈ canonStamp t ++ ['+', '0', '0', '0', '0'], isSpace c = false := by
  intro c hc
  rcases List.mem_append.mp hc with h2 | h2
  · exact no_space_canonStamp t hy hmo hdy hhh hmi hss c h2
  · have : c = '+' ∨ c = '0' := by simpa using h2
    rcases this with rfl | rfl <;> decide

theorem parse_timestamp_offset (t : DT) (h : validDT t = true) :
    parse_timestamp (stampOffset t) = some t := by
  obtain ⟨b1, b2, b3, b4, b5, b6, b7, b8, b9⟩ := validDT_bounds t h
  rw [parse_timestamp_eq]
  rw [show (stampOffset t).data = canonStamp t ++ ['+', '0', '0', '0', '0'] from rfl]
  rw [pyStrip_no_space _ (no_space_offset_tail t b2 (by omega) (by omega) (by omega)
    (by omega) (by omega))]
  rw [strptimeZfmt_offset0 t h]

theorem parse_timestamp_zulu (t : DT) (h : validDT t = true) :
    parse_timestamp (stampZulu t) = some t := by
  obtain ⟨b1, b2, b3, b4, b5, b6, b7, b8, b9⟩ := validDT_bounds t h
  rw [parse_timestamp_eq]
  rw [show (stampZulu t).data = canonStamp t ++ ['Z'] from rfl]
  have hns : ∀ c ∈ canonStamp t ++ ['Z'], isSpace c = false := by
    intro c hc
    rcases List.mem_append.mp hc with h2 | h2
    · exact no_space_canonStamp t b2 (by omega) (by omega) (by omega) (by omega)
        (by omega) c h2
    · have : c = 'Z' := by simpa using h2
      subst this
      decide
  rw [pyStrip_no_space _ hns]
  rw [strptimeZfmt_zulu t h]

theorem strptimeZfmt_bare (t : DT) (h : validDT t = true) :
    strptimeZfmt (canonStamp t) = none := by
  obtain ⟨b1, b2, b3, b4, b5, b6, b7, b8, b9⟩ := validDT_bounds t h
  unfold strptimeZfmt
  rw [show canonStamp t = canonStamp t ++ [] from by simp,
    parseStamp_canon t [] b2 b3 b4 b5 b6 b7 b8 (by omega)]
  rfl

theorem parse_timestamp_bare (t : DT) (h : validDT t = true) :
    parse_timestamp (stampBare t) = some t := by
  obtain ⟨b1, b2, b3, b4, b5, b6, b7, b8, b9⟩ := validDT_bounds t h
  rw [parse_timestamp_eq]
  rw [show (stampBare t).data = canonStamp t from rfl]
  rw [pyStrip_no_space _ (no_space_canonStamp t b2 (by omega) (by omega) (by omega)
    (by omega) (by omega))]
  rw [strptimeZfmt_bare t h, strptimeNaive_canon t h]

theorem decReprAux_succ_ge (f n : Nat) (h : 10 ≤ n) :
    decReprAux (f + 1) n = decReprAux f (n / 10) ++ [digitChar (n % 10)] := by
  rw [show decReprAux (f + 1) n =
    (if n < 10 then [digitChar n] else decReprAux f (n / 10) ++ [digitChar (n % 10)]) from rfl]
  rw [if_neg (by omega)]

theorem decReprAux_succ_lt (f n : Nat) (h : n < 10) :
    decReprAux (f + 1) n = [digitChar n] := by
  rw [show decReprAux (f + 1) n =
    (if n < 10 then [digitChar n] else decReprAux f (n / 10) ++ [digitChar (n % 10)]) from rfl]
  rw [if_pos h]

theorem decRepr_eq_pad4 (y : Nat) (h1 : 1000 ≤ y) (h2 : y ≤ 9999) : decRepr y = pad4 y := by
  have f3 : y - 1 + 1 = y := by omega
  have f2 : y - 2 + 1 = y - 1 := by omega
  have f1 : y - 3 + 1 = y - 2 := by omega
  have e1 : decRepr y = decReprAux y (y / 10) ++ [digitChar (y % 10)] :=
    decReprAux_succ_ge y y (by omega)
  have e2 : decReprAux y (y / 10) =
      decReprAux (y - 1) (y / 10 / 10) ++ [digitChar (y / 10 % 10)] := by
    conv_lhs => rw [← f3]
    rw [decReprAux_succ_ge (y - 1) ((y - 1 + 1) / 10) (by omega)]
    rw [f3]
  have e3 : decReprAux (y - 1) (y / 10 / 10) =
      decReprAux (y - 2) (y / 10 / 10 / 10) ++ [digitChar (y / 10 / 10 % 10)] := by
    conv_lhs => rw [← f2]
    rw [decReprAux_succ_ge (y - 2) (y / 10 / 10) (by omega)]
  have e4 : decReprAux (y - 2) (y / 10 / 10 / 10) = [digitChar (y / 10 / 10 / 10)] := by
    conv_lhs => rw [← f1]
    rw [decReprAux_succ_lt (y - 3) (y / 10 / 10 / 10) (by omega)]
  rw [e1, e2, e3, e4]
  have g1 : y / 10 / 10 / 10 = y / 1000 := by omega
  have g2 : y / 10 / 10 % 10 = y / 100 % 10 := by omega
  rw [g1, g2]
  simp [pad4]

theorem decRepr_len_le3 (n : Nat) (h : n < 1000) : (decRepr n).length ≤ 3 := by
  by_cases h1 : n < 10
  · rw [show decRepr n = decReprAux (n + 1) n from rfl, decReprAux_succ_lt n n h1]
    simp
  · have f3 : n - 1 + 1 = n := by omega
    have e1 : decRepr n = decReprAux n (n / 10) ++ [digitChar (n % 10)] :=
      decReprAux_succ_ge n n (by omega)
    by_cases h2 : n < 100
    · have e2 : decReprAux n (n / 10) = [digitChar (n / 10)] := by
        conv_lhs => rw [← f3]
        rw [decReprAux_succ_lt (n - 1) ((n - 1 + 1) / 10) (by omega)]
        rw [f3]
      rw [e1, e2]
      simp
    · have f2 : n - 2 + 1 = n - 1 := by omega
      have e2 : decReprAux n (n / 10) =
          decReprAux (n - 1) (n / 10 / 10) ++ [digitChar (n / 10 % 10)] := by
        conv_lhs => rw [← f3]
        rw [decReprAux_succ_ge (n - 1) ((n - 1 + 1) / 10) (by omega)]
        rw [f3]
      have e3 : decReprAux (n - 1) (n / 10 / 10) = [digitChar (n / 10 / 10)] := by
        conv_lhs => rw [← f2]
        rw [decReprAux_succ_lt (n - 2) (n / 10 / 10) (by omega)]
      rw [e1, e2, e3]
      simp

theorem csvTs_eq_stampOffset (t : DT) (h1 : 1000 ≤ t.y) (h2 : t.y ≤ 9999) :
    csvTs t = stampOffset t := by
  unfold csvTs stampOffset canonStamp
  rw [decRepr_eq_pad4 t.y h1 h2]
  simp [List.append_assoc]

theorem parse_csvTs (t : DT) (hv : validDT t = true) (hy : 1000 ≤ t.y) :
    parse_timestamp (csvTs t) = some t := by
  obtain ⟨b1, b2, b3, b4, b5, b6, b7, b8, b9⟩ := validDT_bounds t hv
  rw [csvTs_eq_stampOffset t hy b2, parse_timestamp_offset t hv]

theorem mkValid_some (u t : DT) (h : mkValid u = some t) : validDT t = true ∧ u = t := by
  unfold mkValid at h
  by_cases hv : validDT u
  · rw [if_pos hv] at h
    have : u = t := by simpa using h
    subst this
    exact ⟨hv, rfl⟩
  · rw [if_neg hv] at h
    simp at h

theorem strptimeZfmt_some_valid (l : List Char) (t : DT) (h : strptimeZfmt l = some t) :
    validDT t = true := by
  unfold strptimeZfmt at h
  rcases hs : parseStamp true l with _ | p
  · rw [hs] at h
    simp at h
  · rw [hs] at h
    rcases p with ⟨u, rest⟩
    have h2 : (match parseZ rest with
      | none => none
      | some off => if off.natAbs < 86400000000 then mkValid u else none) = some t := h
    rcases hz : parseZ rest with _ | off
    · rw [hz] at h2
      simp at h2
    · rw [hz] at h2
      have h3 : (if off.natAbs < 86400000000 then mkValid u else none) = some t := h2
      by_cases hrange : off.natAbs < 86400000000
      · rw [if_pos hrange] at h3
        exact (mkValid_some u t h3).1
      · rw [if_neg hrange] at h3
        simp at h3

theorem strptimeNaive_some_valid (l : List Char) (t : DT) (h : strptimeNaive l = some t) :
    validDT t = true := by
  unfold strptimeNaive at h
  rcases hs : parseStamp true l with _ | p
  · rw [hs] at h
    simp at h
  · rw [hs] at h
    rcases p with ⟨u, rest⟩
    rcases rest with _ | more
    · exact (mkValid_some u t h).1
    · simp at h

/-- Claim C6.  The three renditions of one instant — explicit `+0000`
offset, `Z` suffix, and bare — all parse, to the same date-time record,
hence to the same calendar date. -/
theorem c6_three_renditions (t : DT) (h : validDT t = true) :
    parse_timestamp (stampOffset t) = some t ∧
      parse_timestamp (stampZulu t) = some t ∧
      parse_timestamp (stampBare t) = some t ∧
      (parse_timestamp (stampOffset t)).map DT.date = some t.date ∧
      (parse_timestamp (stampZulu t)).map DT.date = some t.date ∧
      (parse_timestamp (stampBare t)).map DT.date = some t.date := by
  have h1 := parse_timestamp_offset t h
  have h2 := parse_timestamp_zulu t h
  have h3 := parse_timestamp_bare t h
  exact ⟨h1, h2, h3, by rw [h1]; rfl, by rw [h2]; rfl, by rw [h3]; rfl⟩

/-- Witness for C6 at the instant 2025-11-01 07:31:56. -/
theorem c6_witness :
    validDT ⟨2025, 11, 1, 7, 31, 56⟩ = true ∧
      (parse_timestamp (stampOffset ⟨2025, 11, 1, 7, 31, 56⟩) = some ⟨2025, 11, 1, 7, 31, 56⟩ ∧
        parse_timestamp (stampZulu ⟨2025, 11, 1, 7, 31, 56⟩) = some ⟨2025, 11, 1, 7, 31, 56⟩ ∧
        parse_timestamp (stampBare ⟨2025, 11, 1, 7, 31, 56⟩) = some ⟨2025, 11, 1, 7, 31, 56⟩ ∧
        (parse_timestamp (stampOffset ⟨2025, 11, 1, 7, 31, 56⟩)).map DT.date =
          some (DT.date ⟨2025, 11, 1, 7, 31, 56⟩) ∧
        (parse_timestamp (stampZulu ⟨2025, 11, 1, 7, 31, 56⟩)).map DT.date =
          some (DT.date ⟨2025, 11, 1, 7, 31, 56⟩) ∧
        (parse_timestamp (stampBare ⟨2025, 11, 1, 7, 31, 56⟩)).map DT.date =
          some (DT.date ⟨2025, 11, 1, 7, 31, 56⟩)) :=
  ⟨by decide, c6_three_renditions ⟨2025, 11, 1, 7, 31, 56⟩ (by decide)⟩

/-- Claim C5, counterexample.  The input `2025-11-01T07:31:56+05:00` parses (the real
`%z` accepts colon offsets) although it matches none of the spec's three
grammars, so "fails iff none of the three grammars match" is false. -/
theorem c5_counterexample :
    parse_timestamp "2025-11-01T07:31:56+05:00" ≠ none ∧
      specG1 (pyStrip "2025-11-01T07:31:56+05:00".data) = false ∧
      specG2 (pyStrip "2025-11-01T07:31:56+05:00".data) = false ∧
      specG3 (pyStrip "2025-11-01T07:31:56+05:00".data) = false := by
  refine ⟨?_, by decide, by decide, by decide⟩
  decide

/-- Claim C5, amended.  The parser fails exactly when the stripped input
matches neither the lenient offset format, nor the lenient naive format,
nor — after dropping a trailing `Z` — the naive format again (lenient:
one-or-two-digit month and time fields, a day that may also be
space-padded, case-insensitive `T`, calendar validation, and an offset
`Z` or sign, two hour digits, optional colon, minutes `00`-`59`,
optionally seconds `00`-`59` with an optional 1-6 digit fraction,
strictly under 24 hours); empty or all-whitespace input always fails; and
every successful parse yields a constructor-valid date-time. -/
theorem c5_parse_failure (s : String) :
    (parse_timestamp s = none ↔
      (strptimeZfmt (pyStrip s.data) = none ∧ strptimeNaive (pyStrip s.data) = none ∧
        (endsZ (pyStrip s.data) = true → strptimeNaive (pyStrip s.data).dropLast = none))) ∧
      ((∀ c ∈ s.data, isSpace c = true) → parse_timestamp s = none) ∧
      (∀ t, parse_timestamp s = some t → validDT t = true) := by
  refine ⟨?_, ?_, ?_⟩
  · rw [parse_timestamp_eq]
    rcases hz : strptimeZfmt (pyStrip s.data) with _ | t
    · rcases hn : strptimeNaive (pyStrip s.data) with _ | t
      · by_cases he : endsZ (pyStrip s.data)
        · simp [he]
        · simp [he]
      · simp
    · simp
  · intro hsp
    have hstrip : pyStrip s.data = [] := by
      unfold pyStrip
      rw [List.dropWhile_eq_nil_iff.mpr hsp]
      rfl
    rw [parse_timestamp_eq, hstrip]
    rfl
  · intro t hpt
    rw [parse_timestamp_eq] at hpt
    rcases hz : strptimeZfmt (pyStrip s.data) with _ | u
    · rw [hz] at hpt
      rcases hn : strptimeNaive (pyStrip s.data) with _ | u
      · rw [hn] at hpt
        by_cases he : endsZ (pyStrip s.data)
        · rw [if_pos he] at hpt
          exact strptimeNaive_some_valid _ t hpt
        · rw [if_neg he] at hpt
          simp at hpt
      · rw [hn] at hpt
        have : u = t := by simpa using hpt
        subst this
        exact strptimeNaive_some_valid _ u hn
    · rw [hz] at hpt
      have : u = t := by simpa using hpt
      subst this
      exact strptimeZfmt_some_valid _ u hz

/-- Witness for C5 at concrete inputs: whitespace fails, and a successful
parse is constructor-valid. -/
theorem c5_witness :
    parse_timestamp " " = none ∧
      validDT ⟨2025, 11, 1, 7, 31, 56⟩ = true :=
  ⟨(c5_parse_failure " ").2.1 (by decide),
   (c5_parse_failure "2025-11-01T07:31:56").2.2 ⟨2025, 11, 1, 7, 31, 56⟩ (by decide)⟩

/-! ## Aggregator lemmas -/

theorem stepStat_eq (org : String) (dFrom dTo : Date) (s : SState) (item : Rec) :
    stepStat org dFrom dTo s item =
      if passes org dFrom dTo item then
        (if recKey item ∈ s.uniq.map Prod.fst then s
         else { uniq := s.uniq ++ [embedRec item]
                perDay := bump (dateOf item) 1 s.perDay
                vins := bumpVins item s.vins })
      else s := by
  unfold stepStat
  by_cases h1 : org ≠ "" ∧ item.organization_name ≠ some org
  · rw [if_pos h1]
    have hp : passes org dFrom dTo item = false := by
      rcases h1 with ⟨ho, hn⟩
      simp [passes, ho, hn]
    simp [hp]
  · rw [if_neg h1]
    have horg : (decide (org = "") || decide (item.organization_name = some org)) = true := by
      rcases Decidable.em (org = "") with ho | ho
      · simp [ho]
      · have := not_not.mp (not_and.mp h1 ho)
        simp [this]
    rcases hts : item.time_stamp with _ | ts
    · have hp : passes org dFrom dTo item = false := by
        simp [passes, hts]
      simp [hts, hp]
    · by_cases hempty : ts = ""
      · have hp : passes org dFrom dTo item = false := by
          simp [passes, hts, hempty]
        simp [hts, hempty, hp]
      · rcases hpar : parse_timestamp ts with _ | dt
        · have hp : passes org dFrom dTo item = false := by
            simp [passes, hts, hempty, hpar]
          simp [hts, hempty, hpar, hp]
        · by_cases hrange : dFrom ≤ dt.date ∧ dt.date ≤ dTo
          · have hp : passes org dFrom dTo item = true := by
              simp [passes, hts, hempty, hpar, horg, hrange]
            have hkey : recKey item = (item.query_vin, ts) := by
              simp [recKey, tsOf, hts]
            have hdate : dateOf item = dt.date := by
              simp [dateOf, tsOf, hts, hpar]
            have hemb : embedRec item = ((item.query_vin, ts), toRow item) := by
              simp [embedRec, hkey]
            simp only [hts, hempty, hpar, hp, if_true]
            have hnn : ¬¬(dFrom ≤ dt.date ∧ dt.date ≤ dTo) := not_not.mpr hrange
            rw [if_neg hnn]
            simp only [hkey, hdate, hemb, bumpVins]
            rfl
          · have hp : passes org dFrom dTo item = false := by
              simp [passes, hts, hempty, hpar, hrange]
            simp [hts, hempty, hpar, hrange, hp]

theorem foldl_uniq (org : String) (dFrom dTo : Date) :
    ∀ (l : List Rec) (s : SState) (acc : List Rec), s.uniq = acc.map embedRec →
      (l.foldl (stepStat org dFrom dTo) s).uniq =
        (l.foldl (ddStep org dFrom dTo) acc).map embedRec
  | [], _, _, h => h
  | x :: l, s, acc, h => by
    show ((l.foldl _ (stepStat org dFrom dTo s x)).uniq = _)
    apply foldl_uniq org dFrom dTo l
    rw [stepStat_eq]
    unfold ddStep
    by_cases hp : passes org dFrom dTo x
    · simp only [hp, if_true]
      have hkeys : (recKey x ∈ s.uniq.map Prod.fst) ↔ (recKey x ∈ acc.map recKey) := by
        rw [h, List.map_map]
        exact Iff.rfl
      unfold ddKeep
      by_cases hm : recKey x ∈ acc.map recKey
      · rw [if_pos (hkeys.mpr hm), if_pos hm]
        exact h
      · rw [if_neg (fun hc => hm (hkeys.mp hc)), if_neg hm]
        show s.uniq ++ [embedRec x] = (acc ++ [x]).map embedRec
        rw [h, List.map_append]
        rfl
    · simp only [hp, if_false]
      exact h

theorem foldl_ddStep_filter (org : String) (dFrom dTo : Date) :
    ∀ (l : List Rec) (acc : List Rec),
      l.foldl (ddStep org dFrom dTo) acc =
        (l.filter (passes org dFrom dTo)).foldl ddKeep acc
  | [], _ => rfl
  | x :: l, acc => by
    by_cases hp : passes org dFrom dTo x
    · simp only [List.foldl_cons, List.filter_cons, hp, if_true, ddStep]
      exact foldl_ddStep_filter org dFrom dTo l (ddKeep acc x)
    · simp only [List.foldl_cons, List.filter_cons, hp, Bool.false_eq_true, if_false, ddStep]
      exact foldl_ddStep_filter org dFrom dTo l acc

theorem nodup_foldl_ddKeep :
    ∀ (l : List Rec) (acc : List Rec), (acc.map recKey).Nodup →
      ((l.foldl ddKeep acc).map recKey).Nodup
  | [], _, h => h
  | x :: l, acc, h => by
    show ((l.foldl ddKeep (ddKeep acc x)).map recKey).Nodup
    apply nodup_foldl_ddKeep l
    unfold ddKeep
    by_cases hm : recKey x ∈ acc.map recKey
    · rw [if_pos hm]
      exact h
    · rw [if_neg hm]
      rw [List.map_append]
      simp [List.nodup_append, h, hm]

theorem mem_foldl_ddKeep :
    ∀ (l : List Rec) (acc : List Rec) (z : Rec), z ∈ l.foldl ddKeep acc →
      z ∈ acc ∨ z ∈ l
  | [], _, _, h => Or.inl h
  | x :: l, acc, z, h => by
    rcases mem_foldl_ddKeep l (ddKeep acc x) z h with h2 | h2
    · unfold ddKeep at h2
      by_cases hm : recKey x ∈ acc.map recKey
      · rw [if_pos hm] at h2
        exact Or.inl h2
      · rw [if_neg hm] at h2
        rcases List.mem_append.mp h2 with h3 | h3
        · exact Or.inl h3
        · simp at h3
          subst h3
          exact Or.inr (by simp)
    · exact Or.inr (by simp [h2])

theorem key_mono_foldl_dd (org : String) (dFrom dTo : Date) :
    ∀ (l : List Rec) (acc : List Rec) (k : Option String × String),
      k ∈ acc.map recKey → k ∈ (l.foldl (ddStep org dFrom dTo) acc).map recKey
  | [], _, _, h => h
  | x :: l, acc, k, h => by
    apply key_mono_foldl_dd org dFrom dTo l
    unfold ddStep ddKeep
    by_cases hp : passes org dFrom dTo x
    · simp only [hp, if_true]
      by_cases hm : recKey x ∈ acc.map recKey
      · rw [if_pos hm]
        exact h
      · rw [if_neg hm, List.map_append]
        exact List.mem_append.mpr (Or.inl h)
    · simp only [hp, if_false]
      exact h

theorem key_mem_foldl_dd (org : String) (dFrom dTo : Date) :
    ∀ (l : List Rec) (acc : List Rec) (y : Rec), y ∈ l → passes org dFrom dTo y = true →
      recKey y ∈ (l.foldl (ddStep org dFrom dTo) acc).map recKey
  | [], _, _, hy, _ => by simp at hy
  | x :: l, acc, y, hy, hp => by
    rcases List.mem_cons.mp hy with rfl | hy2
    · apply key_mono_foldl_dd org dFrom dTo l
      unfold ddStep ddKeep
      simp only [hp, if_true]
      by_cases hm : recKey y ∈ acc.map recKey
      · rw [if_pos hm]
        exact hm
      · rw [if_neg hm, List.map_append]
        simp
    · exact key_mem_foldl_dd org dFrom dTo l (ddStep org dFrom dTo acc x) y hy2 hp

theorem calculate_stats_def (data : List Rec) (org : String) (dFrom dTo : Date) :
    calculate_stats data org dFrom dTo =
      ((data.foldl (stepStat org dFrom dTo) ⟨[], [], []⟩).uniq.map Prod.snd,
       (data.foldl (stepStat org dFrom dTo) ⟨[], [], []⟩).perDay,
       most_common5 (data.foldl (stepStat org dFrom dTo) ⟨[], [], []⟩).vins) := rfl

theorem calc_uniq (data : List Rec) (org : String) (dFrom dTo : Date) :
    (data.foldl (stepStat org dFrom dTo) ⟨[], [], []⟩).uniq =
      (dedupByKey (data.filter (passes org dFrom dTo))).map embedRec := by
  rw [foldl_uniq org dFrom dTo data ⟨[], [], []⟩ [] rfl, foldl_ddStep_filter]
  rfl

/-- Claim C1.  For every input record list and every filter, `exportRows`
contains no two rows with equal `(query_vin, time_stamp)` pairs; it equals
the first-seen-per-key deduplication of the guard-passing records
projected to the five retained fields (`response_type` dropped); and a
later record whose key was already seen among earlier passing records
contributes nothing to any of the three outputs. -/
theorem c1_export_rows_dedup (data : List Rec) (org : String) (dFrom dTo : Date) :
    ((calculate_stats data org dFrom dTo).1.Pairwise
        (fun r1 r2 => (r1.query_vin, r1.time_stamp) ≠ (r2.query_vin, r2.time_stamp))) ∧
      (calculate_stats data org dFrom dTo).1 =
        (dedupByKey (data.filter (passes org dFrom dTo))).map toRow ∧
      (∀ (pre : List Rec) (x : Rec) (post : List Rec), data = pre ++ x :: post →
        passes org dFrom dTo x = true →
        (∃ y ∈ pre, passes org dFrom dTo y = true ∧ recKey y = recKey x) →
        calculate_stats data org dFrom dTo = calculate_stats (pre ++ post) org dFrom dTo) := by
  have hexport : (calculate_stats data org dFrom dTo).1 =
      (dedupByKey (data.filter (passes org dFrom dTo))).map toRow := by
    rw [calculate_stats_def]
    show (data.foldl (stepStat org dFrom dTo) ⟨[], [], []⟩).uniq.map Prod.snd = _
    rw [calc_uniq, List.map_map]
    rfl
  refine ⟨?_, hexport, ?_⟩
  · rw [hexport]
    have hnodup : ((dedupByKey (data.filter (passes org dFrom dTo))).map recKey).Nodup :=
      nodup_foldl_ddKeep _ [] (by simp)
    have hpw : (dedupByKey (data.filter (passes org dFrom dTo))).Pairwise
        (fun a b => recKey a ≠ recKey b) := (List.pairwise_map).mp hnodup
    rw [List.pairwise_map]
    refine hpw.imp ?_
    intro a b hne heq
    apply hne
    have h1 : a.query_vin = b.query_vin := by
      simpa [toRow] using congrArg Prod.fst heq
    have h2 : a.time_stamp = b.time_stamp := by
      simpa [toRow] using congrArg Prod.snd heq
    simp [recKey, tsOf, h1, h2]
  · rintro pre x post hdata hpx ⟨y, hy, hpy, hkeq⟩
    have hs1uniq : (pre.foldl (stepStat org dFrom dTo) ⟨[], [], []⟩).uniq.map Prod.fst =
        (pre.foldl (ddStep org dFrom dTo) []).map recKey := by
      rw [foldl_uniq org dFrom dTo pre _ [] rfl, List.map_map]
      rfl
    have hkmem : recKey x ∈ (pre.foldl (stepStat org dFrom dTo) ⟨[], [], []⟩).uniq.map Prod.fst := by
      rw [hs1uniq, ← hkeq]
      exact key_mem_foldl_dd org dFrom dTo pre [] y hy hpy
    have hstep : stepStat org dFrom dTo (pre.foldl (stepStat org dFrom dTo) ⟨[], [], []⟩) x =
        pre.foldl (stepStat org dFrom dTo) ⟨[], [], []⟩ := by
      rw [stepStat_eq]
      simp [hpx, hkmem]
    have hfold : data.foldl (stepStat org dFrom dTo) ⟨[], [], []⟩ =
        (pre ++ post).foldl (stepStat org dFrom dTo) ⟨[], [], []⟩ := by
      rw [hdata, List.foldl_append, List.foldl_append, List.foldl_cons, hstep]
    rw [calculate_stats_def, calculate_stats_def, hfold]

/-- Witness for C1: a record repeating `sampleRec1`'s key contributes
nothing. -/
theorem c1_witness :
    calculate_stats [sampleRec1, sampleRec2] "" ⟨2025, 1, 1⟩ ⟨2025, 12, 31⟩ =
      calculate_stats [sampleRec1] "" ⟨2025, 1, 1⟩ ⟨2025, 12, 31⟩ := by
  have h := (c1_export_rows_dedup [sampleRec1, sampleRec2] "" ⟨2025, 1, 1⟩ ⟨2025, 12, 31⟩).2.2
    [sampleRec1] sampleRec2 [] rfl (by decide) ⟨sampleRec1, by simp, by decide, by decide⟩
  simpa using h

/-- Claim C2.  The `perDayCounts` total equals the number of export rows:
each retained record bumps exactly one day bucket by one. -/
theorem c2_per_day_total (data : List Rec) (org : String) (dFrom dTo : Date) :
    sumCounts (calculate_stats data org dFrom dTo).2.1 =
      (calculate_stats data org dFrom dTo).1.length := by
  have hinv := foldl_inv (fun s : SState => sumCounts s.perDay = s.uniq.length)
    (stepStat org dFrom dTo) ?_ data ⟨[], [], []⟩ (by simp [sumCounts])
  · rw [calculate_stats_def]
    show sumCounts (data.foldl (stepStat org dFrom dTo) ⟨[], [], []⟩).perDay =
      ((data.foldl (stepStat org dFrom dTo) ⟨[], [], []⟩).uniq.map Prod.snd).length
    rw [List.length_map]
    exact hinv
  · intro s item hs
    rw [stepStat_eq]
    by_cases hp : passes org dFrom dTo item
    · simp only [hp, if_true]
      by_cases hm : recKey item ∈ s.uniq.map Prod.fst
      · rw [if_pos hm]
        exact hs
      · rw [if_neg hm]
        show sumCounts (bump (dateOf item) 1 s.perDay) = (s.uniq ++ [embedRec item]).length
        rw [sumCounts_bump, List.length_append, hs]
        rfl
    · simp only [hp, if_false]
      exact hs

/-- Claim C9.  An inverted date range (`dateFrom > dateTo`) makes every
record fail the inclusive range test, so the aggregator returns empty
export rows, an empty per-day counter and an empty top-vins list, without
raising. -/
theorem c9_inverted_range_empty (data : List Rec) (org : String) (dFrom dTo : Date)
    (h : dTo < dFrom) : calculate_stats data org dFrom dTo = ([], [], []) := by
  have hrange : ∀ d : Date, ¬(dFrom ≤ d ∧ d ≤ dTo) := fun d hd =>
    absurd (le_trans hd.1 hd.2) (not_le.mpr h)
  have hpass : ∀ item, passes org dFrom dTo item = false := by
    intro item
    unfold passes
    rcases item.time_stamp with _ | ts
    · simp
    · rcases hpar : parse_timestamp ts with _ | dt
      · simp [hpar]
      · simp [hpar, hrange]
  have hfold : ∀ (l : List Rec) (s : SState), l.foldl (stepStat org dFrom dTo) s = s := by
    intro l
    induction l with
    | nil => intro s; rfl
    | cons x xs ih =>
      intro s
      rw [List.foldl_cons, stepStat_eq, hpass x]
      simpa using ih s
  rw [calculate_stats_def, hfold]
  rfl

/-- Witness for C9 at a concrete inverted range. -/
theorem c9_witness :
    calculate_stats [sampleRec1] "" ⟨2025, 11, 2⟩ ⟨2025, 11, 1⟩ = ([], [], []) :=
  c9_inverted_range_empty [sampleRec1] "" ⟨2025, 11, 2⟩ ⟨2025, 11, 1⟩ (by decide)

theorem mem_bump {α : Type} [DecidableEq α] (k : α) (n : Nat) :
    ∀ (L : List (α × Nat)) (p : α × Nat), p ∈ bump k n L → p.1 = k ∨ p ∈ L
  | [], p, h => by
    simp [bump] at h
    exact Or.inl (by simp [h])
  | (w, c) :: t, p, h => by
    by_cases hw : w = k
    · subst hw
      simp only [bump, if_pos rfl] at h
      rcases List.mem_cons.mp h with rfl | h2
      · exact Or.inl rfl
      · exact Or.inr (List.mem_cons.mpr (Or.inr h2))
    · simp only [bump, if_neg hw] at h
      rcases List.mem_cons.mp h with rfl | h2
      · exact Or.inr (List.mem_cons.mpr (Or.inl rfl))
      · rcases mem_bump k n t p h2 with h3 | h3
        · exact Or.inl h3
        · exact Or.inr (List.mem_cons.mpr (Or.inr h3))

theorem goodVin_some (r : Row) (v : String) (h : goodVin r = some v) :
    r.query_vin = some v ∧ v ≠ "" := by
  rcases hq : r.query_vin with _ | w
  · simp [goodVin, hq] at h
  · simp [goodVin, hq] at h
    by_cases hw : w = ""
    · simp [hw] at h
    · simp [hw] at h
      subst h
      exact ⟨rfl, hw⟩

theorem vinAcc_append_one (rows : List Row) (r : Row) :
    vinAcc (rows ++ [r]) = addVin (vinAcc rows) r := by
  simp [vinAcc, List.foldl_append]

theorem mem_foldl_addVin :
    ∀ (l : List Row) (acc : List String) (v : String),
      v ∈ l.foldl addVin acc ↔ v ∈ acc ∨ ∃ r ∈ l, goodVin r = some v
  | [], acc, v => by simp
  | r :: l, acc, v => by
    have ih := mem_foldl_addVin l (addVin acc r) v
    have hmem : v ∈ addVin acc r ↔ v ∈ acc ∨ goodVin r = some v := by
      rcases hg : goodVin r with _ | w
      · simp [addVin, hg]
      · have ha : addVin acc r = if w ∈ acc then acc else acc ++ [w] := by
          simp [addVin, hg]
        rw [ha]
        by_cases hin : w ∈ acc
        · rw [if_pos hin]
          constructor
          · exact Or.inl
          · rintro (h | h)
            · exact h
            · have hwv : w = v := by simpa using h
              subst hwv
              exact hin
        · rw [if_neg hin]
          simp [List.mem_append, eq_comm]
    rw [List.foldl_cons, ih, hmem]
    constructor
    · rintro ((h | h) | h)
      · exact Or.inl h
      · exact Or.inr ⟨r, by simp, h⟩
      · rcases h with ⟨r2, hr2, hg2⟩
        exact Or.inr ⟨r2, by simp [hr2], hg2⟩
    · rintro (h | ⟨r2, hr2, hg2⟩)
      · exact Or.inl (Or.inl h)
      · rcases List.mem_cons.mp hr2 with rfl | hr3
        · exact Or.inl (Or.inr hg2)
        · exact Or.inr ⟨r2, hr3, hg2⟩

theorem fsIdx_append_of_mem (rows : List Row) (r : Row) (v : String)
    (hv : v ∈ vinAcc rows) : fsIdx (rows ++ [r]) v = fsIdx rows v := by
  rcases (mem_foldl_addVin rows [] v).mp hv with h | ⟨r2, hr2, hg⟩
  · simp at h
  · have hq := (goodVin_some r2 v hg).1
    have hlt : rows.findIdx (fun row => decide (row.query_vin = some v)) < rows.length :=
      List.findIdx_lt_length_of_exists ⟨r2, hr2, by simp [hq]⟩
    unfold fsIdx
    rw [List.findIdx_append, if_pos hlt]

theorem fsIdx_append_of_new (rows : List Row) (r : Row) (w : String)
    (hg : goodVin r = some w) (hnot : w ∉ vinAcc rows) :
    fsIdx (rows ++ [r]) w = rows.length := by
  have hw := goodVin_some r w hg
  have hnone : ∀ r2 ∈ rows, ¬(r2.query_vin = some w) := by
    intro r2 hr2 hq
    apply hnot
    apply (mem_foldl_addVin rows [] w).mpr
    refine Or.inr ⟨r2, hr2, ?_⟩
    simp [goodVin, hq, hw.2]
  have hlen : rows.findIdx (fun row => decide (row.query_vin = some w)) = rows.length :=
    List.findIdx_eq_length_of_false (by
      intro x hx
      simpa using hnone x hx)
  unfold fsIdx
  rw [List.findIdx_append, hlen, if_neg (by omega)]
  simp [List.findIdx_cons, hw.1]

theorem pairwise_fsIdx_vinAcc (rows : List Row) :
    (vinAcc rows).Pairwise (fun v w => fsIdx rows v < fsIdx rows w) := by
  induction rows using List.reverseRecOn with
  | nil => simp [vinAcc]
  | append_singleton rows r ih =>
    rw [vinAcc_append_one]
    have hlift : (vinAcc rows).Pairwise
        (fun v w => fsIdx (rows ++ [r]) v < fsIdx (rows ++ [r]) w) := by
      refine List.Pairwise.imp_of_mem ?_ ih
      intro a b ha hb hab
      rw [fsIdx_append_of_mem rows r a ha, fsIdx_append_of_mem rows r b hb]
      exact hab
    rcases hg : goodVin r with _ | w
    · have hadd : addVin (vinAcc rows) r = vinAcc rows := by
        simp [addVin, hg]
      rw [hadd]
      exact hlift
    · by_cases hin : w ∈ vinAcc rows
      · have hadd : addVin (vinAcc rows) r = vinAcc rows := by
          simp [addVin, hg, hin]
        rw [hadd]
        exact hlift
      · have hadd : addVin (vinAcc rows) r = vinAcc rows ++ [w] := by
          simp [addVin, hg, hin]
        rw [hadd]
        refine List.pairwise_append.mpr ⟨hlift, by simp, ?_⟩
        intro a ha b hb
        have hb2 : b = w := by simpa using hb
        subst hb2
        rw [fsIdx_append_of_mem rows r a ha, fsIdx_append_of_new rows r b hg hin]
        rcases (mem_foldl_addVin rows [] a).mp ha with h | ⟨r2, hr2, hg2⟩
        · simp at h
        · exact List.findIdx_lt_length_of_exists ⟨r2, hr2, by simp [(goodVin_some r2 a hg2).1]⟩

theorem vins_inv_step (org : String) (dFrom dTo : Date) (s : SState) (item : Rec)
    (h : counterKeys s.vins = vinAcc (s.uniq.map Prod.snd) ∧ ∀ p ∈ s.vins, p.1 ≠ "") :
    counterKeys (stepStat org dFrom dTo s item).vins =
        vinAcc ((stepStat org dFrom dTo s item).uniq.map Prod.snd) ∧
      ∀ p ∈ (stepStat org dFrom dTo s item).vins, p.1 ≠ "" := by
  rcases h with ⟨h1, h2⟩
  rw [stepStat_eq]
  by_cases hp : passes org dFrom dTo item
  · simp only [hp, if_true]
    by_cases hm : recKey item ∈ s.uniq.map Prod.fst
    · rw [if_pos hm]
      exact ⟨h1, h2⟩
    · rw [if_neg hm]
      have hrows : ((s.uniq ++ [embedRec item]).map Prod.snd) =
          s.uniq.map Prod.snd ++ [toRow item] := by
        rw [List.map_append]
        rfl
      constructor
      · show counterKeys (bumpVins item s.vins) =
          vinAcc ((s.uniq ++ [embedRec item]).map Prod.snd)
        rw [hrows, vinAcc_append_one]
        rcases hqv : item.query_vin with _ | v
        · have hb : bumpVins item s.vins = s.vins := by
            simp [bumpVins, hqv]
          have ha : addVin (vinAcc (s.uniq.map Prod.snd)) (toRow item) =
              vinAcc (s.uniq.map Prod.snd) := by
            simp [addVin, goodVin, toRow, hqv]
          rw [hb, ha]
          exact h1
        · by_cases hv : v = ""
          · have hb : bumpVins item s.vins = s.vins := by
              simp [bumpVins, hqv, hv]
            have ha : addVin (vinAcc (s.uniq.map Prod.snd)) (toRow item) =
                vinAcc (s.uniq.map Prod.snd) := by
              simp [addVin, goodVin, toRow, hqv, hv]
            rw [hb, ha]
            exact h1
          · have hb : bumpVins item s.vins = bump v 1 s.vins := by
              simp [bumpVins, hqv, hv]
            have hgood : goodVin (toRow item) = some v := by
              simp [goodVin, toRow, hqv, hv]
            have ha : addVin (vinAcc (s.uniq.map Prod.snd)) (toRow item) =
                if v ∈ vinAcc (s.uniq.map Prod.snd) then vinAcc (s.uniq.map Prod.snd)
                else vinAcc (s.uniq.map Prod.snd) ++ [v] := by
              simp [addVin, hgood]
            rw [hb, ha]
            by_cases hvin : v ∈ vinAcc (s.uniq.map Prod.snd)
            · rw [if_pos hvin, counterKeys_bump_mem v 1 s.vins (by rw [h1]; exact hvin)]
              exact h1
            · rw [if_neg hvin,
                counterKeys_bump_not_mem v 1 s.vins (by rw [h1]; exact hvin), h1]
      · show ∀ p ∈ bumpVins item s.vins, p.1 ≠ ""
        intro p hp2
        rcases hqv : item.query_vin with _ | v
        · rw [show bumpVins item s.vins = s.vins from by simp [bumpVins, hqv]] at hp2
          exact h2 p hp2
        · by_cases hv : v = ""
          · rw [show bumpVins item s.vins = s.vins from by simp [bumpVins, hqv, hv]] at hp2
            exact h2 p hp2
          · rw [show bumpVins item s.vins = bump v 1 s.vins from by
              simp [bumpVins, hqv, hv]] at hp2
            rcases mem_bump v 1 s.vins p hp2 with h3 | h3
            · rw [h3]
              exact hv
            · exact h2 p h3
  · simp only [hp, if_false]
    exact ⟨h1, h2⟩

/-- Claim C3.  The `topVins` list has at most five entries, its counts are
descending, ties are broken by the first-seen order of the vin among the
retained export rows, and every listed vin is a non-empty string. -/
theorem c3_top_vins (data : List Rec) (org : String) (dFrom dTo : Date) :
    (calculate_stats data org dFrom dTo).2.2.length ≤ 5 ∧
      (calculate_stats data org dFrom dTo).2.2.Pairwise
        (fun a b => b.2 ≤ a.2 ∧ (a.2 = b.2 →
          fsIdx (calculate_stats data org dFrom dTo).1 a.1 <
            fsIdx (calculate_stats data org dFrom dTo).1 b.1)) ∧
      ∀ p ∈ (calculate_stats data org dFrom dTo).2.2, p.1 ≠ "" := by
  have hinv := foldl_inv
    (fun s : SState => counterKeys s.vins = vinAcc (s.uniq.map Prod.snd) ∧
      ∀ p ∈ s.vins, p.1 ≠ "")
    (stepStat org dFrom dTo) (fun s item h => vins_inv_step org dFrom dTo s item h)
    data ⟨[], [], []⟩ (by constructor <;> simp [counterKeys, vinAcc])
  rcases hinv with ⟨h1, h2⟩
  have hrank : (data.foldl (stepStat org dFrom dTo) ⟨[], [], []⟩).vins.Pairwise
      (fun p q => fsIdx ((data.foldl (stepStat org dFrom dTo) ⟨[], [], []⟩).uniq.map Prod.snd) p.1 <
        fsIdx ((data.foldl (stepStat org dFrom dTo) ⟨[], [], []⟩).uniq.map Prod.snd) q.1) := by
    have hpw := pairwise_fsIdx_vinAcc
      ((data.foldl (stepStat org dFrom dTo) ⟨[], [], []⟩).uniq.map Prod.snd)
    rw [← h1] at hpw
    unfold counterKeys at hpw
    exact List.Pairwise.of_map Prod.fst (fun a b h => h) hpw
  have hsorted := pairwise_sortOrd_rank Prod.snd
    (fun p : String × Nat =>
      fsIdx ((data.foldl (stepStat org dFrom dTo) ⟨[], [], []⟩).uniq.map Prod.snd) p.1)
    (data.foldl (stepStat org dFrom dTo) ⟨[], [], []⟩).vins hrank
  refine ⟨?_, ?_, ?_⟩
  · rw [calculate_stats_def]
    show (most_common5 _).length ≤ 5
    unfold most_common5
    exact (List.length_take_le 5 _)
  · rw [calculate_stats_def]
    show ((sortOrd _ _).take 5).Pairwise _
    exact (hsorted.sublist (List.take_sublist 5 _))
  · rw [calculate_stats_def]
    intro p hp
    have hp2 : p ∈ sortOrd (fun a b => decide (b.2 ≤ a.2))
        (data.foldl (stepStat org dFrom dTo) ⟨[], [], []⟩).vins :=
      List.mem_of_mem_take hp
    exact h2 p ((mem_sortOrd _ p _).mp hp2)

/-- Witness for C3 on concrete data (its pairwise conjunct carries
implications). -/
theorem c3_witness :
    (calculate_stats [sampleRec1] "" ⟨2025, 1, 1⟩ ⟨2025, 12, 31⟩).2.2.length ≤ 5 ∧
      (calculate_stats [sampleRec1] "" ⟨2025, 1, 1⟩ ⟨2025, 12, 31⟩).2.2.Pairwise
        (fun a b => b.2 ≤ a.2 ∧ (a.2 = b.2 →
          fsIdx (calculate_stats [sampleRec1] "" ⟨2025, 1, 1⟩ ⟨2025, 12, 31⟩).1 a.1 <
            fsIdx (calculate_stats [sampleRec1] "" ⟨2025, 1, 1⟩ ⟨2025, 12, 31⟩).1 b.1)) ∧
      ∀ p ∈ (calculate_stats [sampleRec1] "" ⟨2025, 1, 1⟩ ⟨2025, 12, 31⟩).2.2, p.1 ≠ "" :=
  c3_top_vins [sampleRec1] "" ⟨2025, 1, 1⟩ ⟨2025, 12, 31⟩

/-! ## Loader lemmas and claims C7, C4 -/

/-- Claim C7, counterexample.  The row `order_date = "2025-1-2 10:00:00"`
does not match the spec's strict `YYYY-MM-DD HH:MM:SS` grammar, yet it is
not skipped: a canonical record is produced.  So "a non-matching
`order_date` is skipped silently" is false as stated. -/
theorem c7_counterexample :
    specCsvDate (stripStr lenientCsvRow.order_date).data = false ∧
      (stepCsv ⟨[], [], none, none⟩ lenientCsvRow).data =
        [⟨some "u1", some "5", some "5", some "XYZ",
          some "2025-01-02T10:00:00+0000", none⟩] := by
  constructor
  · decide
  · decide

/-- Claim C7, amended.  A CSV row is skipped exactly when its trimmed
`vin` or `order_date` is empty or the `order_date` fails the (lenient)
`%Y-%m-%d %H:%M:%S` parse - month and time fields of one or two digits,
a day that may also be space-padded, any whitespace run as separator,
calendar-validated; otherwise the loader appends one canonical
record whose `time_stamp` is the re-formatted `YYYY-MM-DDTHH:MM:SS+0000`
value, whose `organization_name` resolves through the current table with
the raw id as fallback, and whose `response_type` is null. -/
theorem c7_csv_row (st : LState) (row : CsvRow) :
    ((stripStr row.vin = "" ∨ stripStr row.order_date = "") → stepCsv st row = st) ∧
      (strptimeCsv (stripStr row.order_date).data = none → stepCsv st row = st) ∧
      (∀ dt : DT, stripStr row.vin ≠ "" → stripStr row.order_date ≠ "" →
        strptimeCsv (stripStr row.order_date).data = some dt →
        stepCsv st row =
          { update_min_max st dt.date with
            data := (update_min_max st dt.date).data ++
              [⟨some (stripStr row.order_client), some (stripStr row.organisation),
                some ((tableLookup st.table (stripStr row.organisation)).getD
                  (stripStr row.organisation)),
                some (stripStr row.vin), some (csvTs dt), none⟩] }) := by
  refine ⟨?_, ?_, ?_⟩
  · intro h
    rcases h with h | h
    · simp [stepCsv, h]
    · simp [stepCsv, h]
  · intro h
    by_cases hv : stripStr row.vin = ""
    · simp [stepCsv, hv]
    · by_cases ho : stripStr row.order_date = ""
      · simp [stepCsv, ho]
      · simp [stepCsv, hv, ho, h]
  · intro dt hv ho hp
    simp [stepCsv, hv, ho, hp]

/-- Witness for C7: scenario D's row yields `organization_name = "5"`. -/
theorem c7_witness :
    stepCsv ⟨[], [], none, none⟩ sampleCsvRow =
      { update_min_max ⟨[], [], none, none⟩ (DT.date ⟨2025, 1, 2, 10, 0, 0⟩) with
        data := (update_min_max ⟨[], [], none, none⟩ (DT.date ⟨2025, 1, 2, 10, 0, 0⟩)).data ++
          [⟨some (stripStr sampleCsvRow.order_client), some (stripStr sampleCsvRow.organisation),
            some ((tableLookup ([] : List (String × String))
              (stripStr sampleCsvRow.organisation)).getD (stripStr sampleCsvRow.organisation)),
            some (stripStr sampleCsvRow.vin), some (csvTs ⟨2025, 1, 2, 10, 0, 0⟩), none⟩] } :=
  (c7_csv_row ⟨[], [], none, none⟩ sampleCsvRow).2.2 ⟨2025, 1, 2, 10, 0, 0⟩
    (by decide) (by decide) (by decide)

/-- Claim C4, counterexample.  A JSON record carrying `organization_id = "1"`
and no `organization_name` is appended to the catalog unmodified: its
`organization_name` stays null instead of falling back to the id.  The
loader never fills names into JSON-origin records. -/
theorem c4_counterexample :
    (load_all_data [("a.json", FileContent.jsonFile [sampleRecNoName])]).1 =
        [sampleRecNoName] ∧
      sampleRecNoName.organization_id = some "1" ∧
      sampleRecNoName.organization_name = none := by
  refine ⟨?_, by decide, by decide⟩
  decide

/-- Claim C4, amended.  Files are processed in filename-sorted order; a
kept JSON record is appended verbatim (never name-filled) while the
id→name table learns a pair only for truthy id/name with an unknown id
(first-seen wins); CSV processing never changes the table; and a kept CSV
row's record stores the table's name for its id when one is known at that
moment, the raw id otherwise. -/
theorem c4_org_resolution :
    (∀ files : List (String × FileContent), load_all_data files =
      ((loadFiles ⟨[], [], none, none⟩ (sortFiles files)).data,
       orgNamesOf (loadFiles ⟨[], [], none, none⟩ (sortFiles files)).data,
       (loadFiles ⟨[], [], none, none⟩ (sortFiles files)).minD,
       (loadFiles ⟨[], [], none, none⟩ (sortFiles files)).maxD)) ∧
      (∀ (st : LState) (r : Rec),
        (stepJson st r).data = st.data ++ (if jsonKept r then [r] else []) ∧
        (stepJson st r).table = (if jsonKept r then learnOrg st.table r else st.table)) ∧
      (∀ (st : LState) (row : CsvRow), (stepCsv st row).table = st.table) ∧
      (∀ (st : LState) (row : CsvRow) (dt : DT),
        stripStr row.vin ≠ "" → stripStr row.order_date ≠ "" →
        strptimeCsv (stripStr row.order_date).data = some dt →
        (stepCsv st row).data = st.data ++
          [⟨some (stripStr row.order_client), some (stripStr row.organisation),
            some ((tableLookup st.table (stripStr row.organisation)).getD
              (stripStr row.organisation)),
            some (stripStr row.vin), some (csvTs dt), none⟩]) := by
  refine ⟨fun files => rfl, ?_, ?_, ?_⟩
  · intro st r
    rcases hts : r.time_stamp with _ | ts
    · constructor
      · simp [stepJson, jsonKept, hts]
      · simp [stepJson, jsonKept, hts]
    · by_cases hts2 : ts = ""
      · constructor
        · simp [stepJson, jsonKept, hts, hts2]
        · simp [stepJson, jsonKept, hts, hts2]
      · rcases hpar : parse_timestamp ts with _ | dt
        · constructor
          · simp [stepJson, jsonKept, hts, hts2, hpar]
          · simp [stepJson, jsonKept, hts, hts2, hpar]
        · constructor
          · simp [stepJson, jsonKept, hts, hts2, hpar, update_min_max]
          · simp [stepJson, jsonKept, learnOrg, hts, hts2, hpar, update_min_max]
  · intro st row
    by_cases hv : stripStr row.vin = ""
    · simp [stepCsv, hv]
    · by_cases ho : stripStr row.order_date = ""
      · simp [stepCsv, ho]
      · rcases hp : strptimeCsv (stripStr row.order_date).data with _ | dt
        · simp [stepCsv, hv, ho, hp]
        · simp [stepCsv, hv, ho, hp, update_min_max]
  · intro st row dt hv ho hp
    simp [stepCsv, hv, ho, hp, update_min_max]

/-- Witness for C4: with `("1", "Acme")` already learned, a CSV row with
organisation `1` resolves to `Acme`. -/
theorem c4_witness :
    (stepCsv ⟨[], [("1", "Acme")], none, none⟩
        ⟨some "X", some "2025-01-02 10:00:00", some "1", some "u"⟩).data =
      [⟨some "u", some "1", some "Acme", some "X",
        some (csvTs ⟨2025, 1, 2, 10, 0, 0⟩), none⟩] := by
  have h := (c4_org_resolution).2.2.2 ⟨[], [("1", "Acme")], none, none⟩
    ⟨some "X", some "2025-01-02 10:00:00", some "1", some "u"⟩ ⟨2025, 1, 2, 10, 0, 0⟩
    (by decide) (by decide) (by decide)
  rw [h]
  decide

/-! ## Claim C10: the observed date span -/

theorem strptimeCsv_some_valid (l : List Char) (t : DT) (h : strptimeCsv l = some t) :
    validDT t = true := by
  unfold strptimeCsv at h
  rcases hs : parseStamp false l with _ | p
  · rw [hs] at h
    simp at h
  · rw [hs] at h
    rcases p with ⟨u, rest⟩
    rcases rest with _ | more
    · exact (mkValid_some u t h).1
    · simp at h

theorem update_minD (st : LState) (d : Date) :
    ∃ m, (update_min_max st d).minD = some m ∧ m ≤ d ∧
      ∀ m0, st.minD = some m0 → m ≤ m0 := by
  rcases hm : st.minD with _ | m0
  · refine ⟨d, by simp [update_min_max, hm], le_refl d, ?_⟩
    intro m0 h0
    cases h0
  · by_cases hlt : d < m0
    · refine ⟨d, by simp [update_min_max, hm, hlt], le_refl d, ?_⟩
      intro m1 h1
      have : m0 = m1 := by simpa using h1
      subst this
      exact le_of_lt hlt
    · refine ⟨m0, by simp [update_min_max, hm, hlt], not_lt.mp hlt, ?_⟩
      intro m1 h1
      have : m0 = m1 := by simpa using h1
      subst this
      exact le_refl m0

theorem update_maxD (st : LState) (d : Date) :
    ∃ M, (update_min_max st d).maxD = some M ∧ d ≤ M ∧
      ∀ M0, st.maxD = some M0 → M0 ≤ M := by
  rcases hm : st.maxD with _ | M0
  · refine ⟨d, by simp [update_min_max, hm], le_refl d, ?_⟩
    intro M1 h0
    cases h0
  · by_cases hlt : M0 < d
    · refine ⟨d, by simp [update_min_max, hm, hlt], le_refl d, ?_⟩
      intro M1 h1
      have : M0 = M1 := by simpa using h1
      subst this
      exact le_of_lt hlt
    · refine ⟨M0, by simp [update_min_max, hm, hlt], not_lt.mp hlt, ?_⟩
      intro M1 h1
      have : M0 = M1 := by simpa using h1
      subst this
      exact le_refl M0

theorem spanInv_append (st : LState) (d0 : Date) (r0 : Rec) (hg : obsGood r0 d0)
    (st2 : LState) (hdata : st2.data = st.data ++ [r0])
    (hmi : st2.minD = (update_min_max st d0).minD)
    (hma : st2.maxD = (update_min_max st d0).maxD)
    (h : spanInv st) : spanInv st2 := by
  obtain ⟨m1, hm1, hm1le, hm1mono⟩ := update_minD st d0
  obtain ⟨M1, hM1, hM1ge, hM1mono⟩ := update_maxD st d0
  rcases h with ⟨h1, h2, h3⟩
  refine ⟨?_, ?_, ?_⟩
  · rw [hdata, hmi, hm1]
    simp
  · rw [hdata, hma, hM1]
    simp
  · intro r2 hr2
    rw [hdata] at hr2
    rcases List.mem_append.mp hr2 with hr3 | hr3
    · obtain ⟨d, hgood, ⟨dmin, hdmin, hle⟩, ⟨dmax, hdmax, hge⟩⟩ := h3 r2 hr3
      exact ⟨d, hgood, ⟨m1, by rw [hmi, hm1], le_trans (hm1mono dmin hdmin) hle⟩,
        ⟨M1, by rw [hma, hM1], le_trans hge (hM1mono dmax hdmax)⟩⟩
    · have : r2 = r0 := by simpa using hr3
      subst this
      exact ⟨d0, hg, ⟨m1, by rw [hmi, hm1], hm1le⟩, ⟨M1, by rw [hma, hM1], hM1ge⟩⟩

theorem spanInv_stepJson (st : LState) (r : Rec) (h : spanInv st) :
    spanInv (stepJson st r) := by
  rcases hts : r.time_stamp with _ | ts
  · rw [show stepJson st r = st from by simp [stepJson, hts]]
    exact h
  · by_cases hts2 : ts = ""
    · rw [show stepJson st r = st from by simp [stepJson, hts, hts2]]
      exact h
    · rcases hpar : parse_timestamp ts with _ | dt
      · rw [show stepJson st r = st from by simp [stepJson, hts, hts2, hpar]]
        exact h
      · refine spanInv_append st dt.date r ?_ (stepJson st r) ?_ ?_ ?_ h
        · refine Or.inl ⟨dt, ?_, rfl⟩
          rw [show tsOf r = ts from by simp [tsOf, hts]]
          exact hpar
        · simp [stepJson, hts, hts2, hpar, update_min_max]
        · simp [stepJson, hts, hts2, hpar, update_min_max]
        · simp [stepJson, hts, hts2, hpar, update_min_max]

theorem spanInv_stepCsv (st : LState) (row : CsvRow) (h : spanInv st) :
    spanInv (stepCsv st row) := by
  by_cases hv : stripStr row.vin = ""
  · rw [show stepCsv st row = st from by simp [stepCsv, hv]]
    exact h
  · by_cases ho : stripStr row.order_date = ""
    · rw [show stepCsv st row = st from by simp [stepCsv, ho]]
      exact h
    · rcases hp : strptimeCsv (stripStr row.order_date).data with _ | dt
      · rw [show stepCsv st row = st from by simp [stepCsv, hv, ho, hp]]
        exact h
      · have hvd := strptimeCsv_some_valid _ dt hp
        refine spanInv_append st dt.date
          ⟨some (stripStr row.order_client), some (stripStr row.organisation),
            some ((tableLookup st.table (stripStr row.organisation)).getD
              (stripStr row.organisation)),
            some (stripStr row.vin), some (csvTs dt), none⟩ ?_ (stepCsv st row) ?_ ?_ ?_ h
        · by_cases hy : 1000 ≤ dt.y
          · refine Or.inl ⟨dt, ?_, rfl⟩
            rw [show tsOf ⟨some (stripStr row.order_client), some (stripStr row.organisation),
              some ((tableLookup st.table (stripStr row.organisation)).getD
                (stripStr row.organisation)),
              some (stripStr row.vin), some (csvTs dt), none⟩ = csvTs dt from by
                simp [tsOf]]
            exact parse_csvTs dt hvd hy
          · exact Or.inr ⟨dt, by simp, by omega, hvd, rfl⟩
        · simp [stepCsv, hv, ho, hp, update_min_max]
        · simp [stepCsv, hv, ho, hp, update_min_max]
        · simp [stepCsv, hv, ho, hp, update_min_max]

theorem spanInv_loadFile (st : LState) (f : String × FileContent) (h : spanInv st) :
    spanInv (loadFile st f) := by
  rcases f with ⟨name, content⟩
  rcases content with recs | _ | rows | _
  · exact foldl_inv spanInv stepJson (fun s r hs => spanInv_stepJson s r hs) recs st h
  · exact h
  · exact foldl_inv spanInv stepCsv (fun s r hs => spanInv_stepCsv s r hs) rows st h
  · exact h

/-- Claim C10, counterexample.  A CSV row dated in year 999 yields a
non-empty catalog whose single record's `time_stamp` is the unpadded
`999-01-01T00:00:00+0000`, which `parse_timestamp` rejects — so "every
record in the returned catalog has a parseable time_stamp" is false. -/
theorem c10_counterexample :
    (load_all_data [("a.csv", FileContent.csvFile [oldYearCsvRow])]).1 =
        [⟨some "u1", some "5", some "5", some "XYZ",
          some "999-01-01T00:00:00+0000", none⟩] ∧
      (load_all_data [("a.csv", FileContent.csvFile [oldYearCsvRow])]).2.2.1 =
        some ⟨999, 1, 1⟩ ∧
      (load_all_data [("a.csv", FileContent.csvFile [oldYearCsvRow])]).2.2.2 =
        some ⟨999, 1, 1⟩ ∧
      parse_timestamp "999-01-01T00:00:00+0000" = none := by
  refine ⟨?_, ?_, ?_, ?_⟩ <;> decide

/-- Claim C10, amended.  After a load, `min_date`/`max_date` are `None`
exactly when the catalog is empty; and every catalog record carries an
observed date between them — through a re-parseable `time_stamp`, except
for CSV-synthesized stamps of years below 1000, whose unpadded `%Y`
rendering loses re-parseability while the embedded date still lies in the
span. -/
theorem c10_date_span (files : List (String × FileContent)) :
    ((load_all_data files).2.2.1 = none ↔ (load_all_data files).1 = []) ∧
      ((load_all_data files).2.2.2 = none ↔ (load_all_data files).1 = []) ∧
      ∀ r ∈ (load_all_data files).1, ∃ d : Date, obsGood r d ∧
        (∃ dmin, (load_all_data files).2.2.1 = some dmin ∧ dmin ≤ d) ∧
        (∃ dmax, (load_all_data files).2.2.2 = some dmax ∧ d ≤ dmax) := by
  have hinv := foldl_inv spanInv loadFile (fun s f hs => spanInv_loadFile s f hs)
    (sortFiles files) ⟨[], [], none, none⟩ ⟨by simp, by simp, by simp⟩
  exact hinv

/-- Witness for C10: the span facts at a concrete one-record load. -/
theorem c10_witness :
    ∃ d : Date, obsGood sampleRec1 d ∧
      (∃ dmin, (load_all_data [("a.json", FileContent.jsonFile [sampleRec1])]).2.2.1 =
        some dmin ∧ dmin ≤ d) ∧
      (∃ dmax, (load_all_data [("a.json", FileContent.jsonFile [sampleRec1])]).2.2.2 =
        some dmax ∧ d ≤ dmax) :=
  (c10_date_span [("a.json", FileContent.jsonFile [sampleRec1])]).2.2 sampleRec1 (by decide)

/-! ## Claim C8: chart bucketing -/

theorem nodup_counterKeys_bump {α : Type} [DecidableEq α] (k : α) (n : Nat)
    (L : List (α × Nat)) (h : (counterKeys L).Nodup) : (counterKeys (bump k n L)).Nodup := by
  by_cases hm : k ∈ counterKeys L
  · rw [counterKeys_bump_mem k n L hm]
    exact h
  · rw [counterKeys_bump_not_mem k n L hm]
    simp [List.nodup_append, h, hm]

theorem nodup_keys_foldl_bump {γ β : Type} [DecidableEq β] (key : γ → β) (amt : γ → Nat) :
    ∀ (l : List γ) (acc : List (β × Nat)), (counterKeys acc).Nodup →
      (counterKeys (l.foldl (fun acc p => bump (key p) (amt p) acc) acc)).Nodup
  | [], _, h => h
  | p :: l, acc, h =>
    nodup_keys_foldl_bump key amt l (bump (key p) (amt p) acc)
      (nodup_counterKeys_bump (key p) (amt p) acc h)

theorem mem_keys_foldl_bump {γ β : Type} [DecidableEq β] (key : γ → β) (amt : γ → Nat) :
    ∀ (l : List γ) (acc : List (β × Nat)) (k : β),
      k ∈ counterKeys (l.foldl (fun acc p => bump (key p) (amt p) acc) acc) →
      k ∈ counterKeys acc ∨ ∃ p ∈ l, k = key p
  | [], _, _, h => Or.inl h
  | p :: l, acc, k, h => by
    rcases mem_keys_foldl_bump key amt l (bump (key p) (amt p) acc) k h with h2 | h2
    · by_cases hm : key p ∈ counterKeys acc
      · rw [counterKeys_bump_mem _ _ _ hm] at h2
        exact Or.inl h2
      · rw [counterKeys_bump_not_mem _ _ _ hm] at h2
        rcases List.mem_append.mp h2 with h3 | h3
        · exact Or.inl h3
        · have : k = key p := by simpa using h3
          exact Or.inr ⟨p, by simp, this⟩
    · rcases h2 with ⟨q, hq, hkq⟩
      exact Or.inr ⟨q, by simp [hq], hkq⟩

theorem sumCounts_foldl_bump {γ β : Type} [DecidableEq β] (key : γ → β) (amt : γ → Nat) :
    ∀ (l : List γ) (acc : List (β × Nat)),
      sumCounts (l.foldl (fun acc p => bump (key p) (amt p) acc) acc) =
        sumCounts acc + (l.map amt).sum
  | [], acc => by simp
  | p :: l, acc => by
    rw [List.foldl_cons, sumCounts_foldl_bump key amt l (bump (key p) (amt p) acc),
      sumCounts_bump]
    simp
    omega

theorem counterGet_keys {α : Type} [DecidableEq α] :
    ∀ L : List (α × Nat), (counterKeys L).Nodup →
      (counterKeys L).map (fun k => counterGet L k) = L.map Prod.snd
  | [], _ => rfl
  | (k, c) :: t, h => by
    have h2 : k ∉ counterKeys t ∧ (counterKeys t).Nodup := by
      have h3 : (k :: counterKeys t).Nodup := h
      exact List.nodup_cons.mp h3
    show counterGet ((k, c) :: t) k ::
      (counterKeys t).map (fun x => counterGet ((k, c) :: t) x) = c :: t.map Prod.snd
    rw [counterGet_head]
    congr 1
    rw [List.map_congr_left (fun x hx => counterGet_tail x k c t
      (fun he => h2.1 (he ▸ hx)))]
    exact counterGet_keys t h2.2

theorem ymLe_total (a b : Nat × Nat) : ymLe a b || ymLe b a := by
  rcases a with ⟨a1, a2⟩
  rcases b with ⟨b1, b2⟩
  simp [ymLe]
  omega

theorem ymLe_trans (a b c : Nat × Nat) (h1 : ymLe a b) (h2 : ymLe b c) : ymLe a c := by
  rcases a with ⟨a1, a2⟩
  rcases b with ⟨b1, b2⟩
  rcases c with ⟨c1, c2⟩
  simp [ymLe] at *
  omega

theorem dateLeB_total (a b : Date) : decide (a ≤ b) || decide (b ≤ a) := by
  rcases le_total a b with h | h <;> simp [h]

theorem dateLeB_trans (a b c : Date) (h1 : decide (a ≤ b) = true)
    (h2 : decide (b ≤ c) = true) : decide (a ≤ c) = true := by
  simp at *
  exact le_trans h1 h2

theorem perMonth_sum (perDay : List (Date × Nat)) :
    sumCounts (perMonth perDay) = sumCounts perDay := by
  have h := sumCounts_foldl_bump (fun p : Date × Nat => (p.1.y, p.1.m))
    (fun p : Date × Nat => p.2) perDay []
  simpa [perMonth, sumCounts] using h

/-- Claim C8, counterexample.  Year-999 dates are reachable (the JSON
timestamp `0999-01-01T00:00:00` parses), and a per-day counter with
thirty-two such days re-buckets monthly with labels `01.999` and
`02.999`: six characters with a three-digit year, not the claimed
`MM.YYYY` shape, because the f-string `{y}` does not zero-pad. -/
theorem c8_counterexample :
    (parse_timestamp "0999-01-01T00:00:00").map DT.date = some ⟨999, 1, 1⟩ ∧
      31 < c8perDay.length ∧
      shapePerDayChart c8perDay = [("01.999", 28), ("02.999", 4)] ∧
      (∀ lbl ∈ (shapePerDayChart c8perDay).map Prod.fst, lbl.data.length = 6) := by
  refine ⟨by decide, by decide, by decide, by decide⟩

/-- Claim C8, amended.  With at most 31 distinct days the chart emits one
bucket per day, labeled `DD.MM.`, sorted strictly ascending by date; with
more it emits one bucket per `(year, month)`, sorted strictly ascending
lexicographically, with the bucket counts summing to the per-day total,
and labeled two month digits, a dot, then the year in unpadded decimal -
four digits exactly when the year is at least 1000, at most three digits
(so not the spec's `MM.YYYY`) below that. -/
theorem c8_chart_shape (perDay : List (Date × Nat)) (_hne : perDay ≠ [])
    (hnodup : (perDay.map Prod.fst).Nodup)
    (hdates : ∀ p ∈ perDay, 1 ≤ p.1.y ∧ p.1.y ≤ 9999 ∧ 1 ≤ p.1.m ∧ p.1.m ≤ 12 ∧
      1 ≤ p.1.d ∧ p.1.d ≤ 31) :
    (perDay.length ≤ 31 →
      ∃ ds : List Date, ds.Perm (perDay.map Prod.fst) ∧ ds.Pairwise (· < ·) ∧
        shapePerDayChart perDay = ds.map (fun d => (dayLabel d, counterGet perDay d)) ∧
        (shapePerDayChart perDay).length = perDay.length ∧
        (∀ d ∈ ds, ∃ c1 c2 c3 c4, (dayLabel d).data = [c1, c2, '.', c3, c4, '.'] ∧
          isDig c1 = true ∧ isDig c2 = true ∧ isDig c3 = true ∧ isDig c4 = true)) ∧
      (31 < perDay.length →
        ∃ ks : List (Nat × Nat), ks.Perm ((perMonth perDay).map Prod.fst) ∧
          ks.Pairwise (fun a b => a.1 < b.1 ∨ (a.1 = b.1 ∧ a.2 < b.2)) ∧
          shapePerDayChart perDay =
            ks.map (fun k => (monthLabel k, counterGet (perMonth perDay) k)) ∧
          ((shapePerDayChart perDay).map Prod.snd).sum = sumCounts perDay ∧
          (∀ k ∈ ks, ∃ c1 c2,
            pad2 k.2 = [c1, c2] ∧ isDig c1 = true ∧ isDig c2 = true ∧
            (monthLabel k).data = c1 :: c2 :: '.' :: decRepr k.1 ∧
            (1000 ≤ k.1 → ∃ y1 y2 y3 y4, decRepr k.1 = [y1, y2, y3, y4] ∧
              isDig y1 = true ∧ isDig y2 = true ∧ isDig y3 = true ∧ isDig y4 = true) ∧
            (k.1 < 1000 → (decRepr k.1).length ≤ 3))) := by
  constructor
  · intro h31
    refine ⟨sortOrd (fun a b => decide (a ≤ b)) (perDay.map Prod.fst),
      perm_sortOrd _ _, ?_, ?_, ?_, ?_⟩
    · have hle := pairwise_sortOrd (fun a b : Date => decide (a ≤ b))
        dateLeB_total dateLeB_trans (perDay.map Prod.fst)
      have hnd : (sortOrd (fun a b : Date => decide (a ≤ b)) (perDay.map Prod.fst)).Nodup :=
        (perm_sortOrd _ _).symm.nodup hnodup
      refine (hle.and hnd).imp ?_
      intro a b hab
      exact lt_of_le_of_ne (by simpa using hab.1) hab.2
    · simp [shapePerDayChart, h31]
    · simp [shapePerDayChart, h31, length_sortOrd]
    · intro d hd
      have hdm : d ∈ perDay.map Prod.fst := (mem_sortOrd _ d _).mp hd
      obtain ⟨p, hp, rfl⟩ := List.mem_map.mp hdm
      obtain ⟨e1, e2, e3, e4, e5, e6⟩ := hdates p hp
      exact ⟨digitChar (p.1.d / 10), digitChar (p.1.d % 10),
        digitChar (p.1.m / 10), digitChar (p.1.m % 10), rfl,
        isDig_digitChar _ (by omega), isDig_digitChar _ (by omega),
        isDig_digitChar _ (by omega), isDig_digitChar _ (by omega)⟩
  · intro h31
    have hn : ¬ perDay.length ≤ 31 := by omega
    have hkeysnd : (counterKeys (perMonth perDay)).Nodup := by
      have := nodup_keys_foldl_bump (fun p : Date × Nat => (p.1.y, p.1.m))
        (fun p : Date × Nat => p.2) perDay [] (by simp [counterKeys])
      simpa [perMonth] using this
    refine ⟨sortOrd ymLe ((perMonth perDay).map Prod.fst), perm_sortOrd _ _, ?_, ?_, ?_, ?_⟩
    · have hle := pairwise_sortOrd ymLe ymLe_total ymLe_trans ((perMonth perDay).map Prod.fst)
      have hnd : (sortOrd ymLe ((perMonth perDay).map Prod.fst)).Nodup :=
        (perm_sortOrd _ _).symm.nodup hkeysnd
      refine (hle.and hnd).imp ?_
      rintro ⟨a1, a2⟩ ⟨b1, b2⟩ hab
      have h1 := hab.1
      have h2 := hab.2
      simp [ymLe] at h1
      simp [Prod.ext_iff] at h2
      omega
    · simp [shapePerDayChart, hn]
    · have heq : shapePerDayChart perDay =
          (sortOrd ymLe ((perMonth perDay).map Prod.fst)).map
            (fun k => (monthLabel k, counterGet (perMonth perDay) k)) := by
        simp [shapePerDayChart, hn]
      rw [heq, List.map_map]
      have hcomp : (Prod.snd ∘ fun k => (monthLabel k, counterGet (perMonth perDay) k)) =
          fun k => counterGet (perMonth perDay) k := rfl
      rw [hcomp]
      have hperm := (perm_sortOrd ymLe ((perMonth perDay).map Prod.fst)).map
        (fun k => counterGet (perMonth perDay) k)
      rw [hperm.sum_eq]
      have hkeys : ((perMonth perDay).map Prod.fst).map
          (fun k => counterGet (perMonth perDay) k) = (perMonth perDay).map Prod.snd :=
        counterGet_keys (perMonth perDay) hkeysnd
      rw [hkeys]
      exact perMonth_sum perDay
    · intro k hk
      have hkm : k ∈ (perMonth perDay).map Prod.fst := (mem_sortOrd _ k _).mp hk
      rcases mem_keys_foldl_bump (fun p : Date × Nat => (p.1.y, p.1.m))
        (fun p : Date × Nat => p.2) perDay [] k hkm with h | h
      · simp [counterKeys] at h
      · rcases h with ⟨p, hp, rfl⟩
        obtain ⟨e1, e2, e3, e4, e5, e6⟩ := hdates p hp
        refine ⟨digitChar (p.1.m / 10), digitChar (p.1.m % 10), rfl,
          isDig_digitChar _ (by omega), isDig_digitChar _ (by omega), rfl, ?_, ?_⟩
        · intro hy
          show ∃ y1 y2 y3 y4, decRepr p.1.y = [y1, y2, y3, y4] ∧
            isDig y1 = true ∧ isDig y2 = true ∧ isDig y3 = true ∧ isDig y4 = true
          rw [decRepr_eq_pad4 p.1.y hy e2]
          exact ⟨digitChar (p.1.y / 1000), digitChar (p.1.y / 100 % 10),
            digitChar (p.1.y / 10 % 10), digitChar (p.1.y % 10), rfl,
            isDig_digitChar _ (by omega), isDig_digitChar _ (by omega),
            isDig_digitChar _ (by omega), isDig_digitChar _ (by omega)⟩
        · intro hy
          exact decRepr_len_le3 p.1.y hy

/-- Witness for C8 on a concrete one-day counter. -/
theorem c8_witness :
    ([((⟨2025, 11, 1⟩ : Date), (2 : Nat))] : List (Date × Nat)) ≠ [] ∧
      (∃ ds : List Date,
        ds.Perm (([((⟨2025, 11, 1⟩ : Date), (2 : Nat))] : List (Date × Nat)).map Prod.fst) ∧
        ds.Pairwise (· < ·) ∧
        shapePerDayChart [((⟨2025, 11, 1⟩ : Date), (2 : Nat))] =
          ds.map (fun d => (dayLabel d, counterGet [((⟨2025, 11, 1⟩ : Date), (2 : Nat))] d)) ∧
        (shapePerDayChart [((⟨2025, 11, 1⟩ : Date), (2 : Nat))]).length =
          ([((⟨2025, 11, 1⟩ : Date), (2 : Nat))] : List (Date × Nat)).length ∧
        (∀ d ∈ ds, ∃ c1 c2 c3 c4, (dayLabel d).data = [c1, c2, '.', c3, c4, '.'] ∧
          isDig c1 = true ∧ isDig c2 = true ∧ isDig c3 = true ∧ isDig c4 = true)) :=
  ⟨by decide,
   (c8_chart_shape [((⟨2025, 11, 1⟩ : Date), (2 : Nat))] (by decide) (by decide)
     (by decide)).1 (by decide)⟩

end AH
